import Mathlib

/-!
Shallow embedding of the `fast-awk` engine of this repository
(src/fast-awk/src/{value,runtime,interpreter,ast}.rs) and proofs about it.

Modelling conventions, used consistently below:

* Rust `String`/`&str` values are modelled as `List Char` (`Str`); Rust byte
  lengths are recovered by `utf8Len` where the source counts bytes.
* Rust `f64` is modelled by `ℚ`, exact where no precision loss occurs.  The
  executable arithmetic is expressed through `qAdd`/`qSub`/`qMul`/`qDiv`/`qNeg`
  (definable via `mkRat`/`Rat.divInt`, which the kernel can evaluate) and is
  proved equal to the mathematical field operations on `ℚ`.
  Transcendental operations (`sin`, `powf`, …) and the decimal renderings of
  `format!` precision specifiers are abstracted by a `FloatOps` oracle.
* The `regex` crate is abstracted by a `RegexImpl` oracle providing
  compilability, matching, splitting and replacement; the source's
  `regex_cache` is a memoization of compilation only and is not part of the
  observable state.
* `std::io` output (`print!`/`println!`) is modelled by an `output` list
  appended to the runtime context; flushing cannot fail in the model.
* Interpreter recursion is indexed by explicit fuel; exhausting the fuel
  yields the model-only error `Err.OutOfFuel`.  All theorems about runs are
  stated for executions that return a result.
-/

namespace FastAwk

/-- Characters of a Rust string (`String` is a UTF-8 sequence of `char`s). -/
abbrev Str := List Char

/-- Convert a Lean string literal to the `Str` model. -/
def str (s : String) : Str := s.data

/-! ### Exact rational model of `f64` arithmetic

`Rat.add`/`Rat.mul`/… are `@[irreducible]` in the ambient library, so the
embedding uses its own kernel-evaluable forms and proves them equal to the
field operations. -/

/-- Exact model of `f64` addition. -/
def qAdd (a b : ℚ) : ℚ := mkRat (a.num * b.den + b.num * a.den) (a.den * b.den)

/-- Exact model of `f64` subtraction. -/
def qSub (a b : ℚ) : ℚ := mkRat (a.num * b.den - b.num * a.den) (a.den * b.den)

/-- Exact model of `f64` multiplication. -/
def qMul (a b : ℚ) : ℚ := Rat.divInt (a.num * b.num) (a.den * b.den)

/-- Exact model of `f64` division (the interpreter only divides by nonzero
values; on a zero divisor this returns `0`, which matches `x / 0` on `ℚ`). -/
def qDiv (a b : ℚ) : ℚ := Rat.divInt (a.num * b.den) (a.den * b.num)

/-- Exact model of `f64` negation. -/
def qNeg (a : ℚ) : ℚ := mkRat (-a.num) a.den

/-- Exact model of the `f64` `<` test (`partial_cmp`; `ℚ` has no NaN). -/
def qLtB (a b : ℚ) : Bool := Rat.blt a b

/-- Truncation toward zero, the model of Rust's `f64 → integer` casts
before saturation. -/
def qTruncZ (a : ℚ) : ℤ := a.num.tdiv a.den

theorem q_num_eq (r : ℚ) : (r.num : ℚ) = r * r.den := by
  have hd : (r.den : ℚ) ≠ 0 := by
    exact_mod_cast r.den_nz
  have h := Rat.num_div_den r
  rw [div_eq_iff hd] at h
  exact h

theorem qAdd_eq (a b : ℚ) : qAdd a b = a + b := by
  have ha : (a.den : ℚ) ≠ 0 := by exact_mod_cast a.den_nz
  have hb : (b.den : ℚ) ≠ 0 := by exact_mod_cast b.den_nz
  rw [qAdd, Rat.mkRat_eq_divInt, Rat.divInt_eq_div]
  push_cast
  rw [div_eq_iff (by exact mul_ne_zero ha hb)]
  rw [q_num_eq a, q_num_eq b]
  ring

theorem qSub_eq (a b : ℚ) : qSub a b = a - b := by
  have ha : (a.den : ℚ) ≠ 0 := by exact_mod_cast a.den_nz
  have hb : (b.den : ℚ) ≠ 0 := by exact_mod_cast b.den_nz
  rw [qSub, Rat.mkRat_eq_divInt, Rat.divInt_eq_div]
  push_cast
  rw [div_eq_iff (by exact mul_ne_zero ha hb)]
  rw [q_num_eq a, q_num_eq b]
  ring

theorem qMul_eq (a b : ℚ) : qMul a b = a * b := by
  have ha : (a.den : ℚ) ≠ 0 := by exact_mod_cast a.den_nz
  have hb : (b.den : ℚ) ≠ 0 := by exact_mod_cast b.den_nz
  rw [qMul, Rat.divInt_eq_div]
  push_cast
  rw [div_eq_iff (by exact mul_ne_zero ha hb)]
  rw [q_num_eq a, q_num_eq b]
  ring

theorem qDiv_eq (a b : ℚ) : qDiv a b = a / b := by
  have ha : (a.den : ℚ) ≠ 0 := by exact_mod_cast a.den_nz
  rcases eq_or_ne b 0 with rfl | hb0
  · simp [qDiv, Rat.divInt_eq_div]
  · have hbn : (b.num : ℚ) ≠ 0 := by
      exact_mod_cast Rat.num_ne_zero.mpr hb0
    rw [qDiv, Rat.divInt_eq_div]
    push_cast
    rw [div_eq_div_iff (by exact mul_ne_zero ha hbn) hb0]
    rw [q_num_eq a, q_num_eq b]
    ring

theorem qNeg_eq (a : ℚ) : qNeg a = -a := by
  have ha : (a.den : ℚ) ≠ 0 := by exact_mod_cast a.den_nz
  rw [qNeg, Rat.mkRat_eq_divInt, Rat.divInt_eq_div]
  push_cast
  rw [div_eq_iff ha, q_num_eq a]
  ring

theorem qLtB_iff (a b : ℚ) : qLtB a b = true ↔ a < b := Iff.rfl

/-! ### Character classes and basic string operations -/

/-- Model of `char::is_whitespace` (the Unicode `White_Space` property,
which is what `str::trim` and `str::split_whitespace` use). -/
def isWs (c : Char) : Bool :=
  let n := c.toNat
  (0x09 ≤ n && n ≤ 0x0D) || n = 0x20 || n = 0x85 || n = 0xA0 || n = 0x1680 ||
    (0x2000 ≤ n && n ≤ 0x200A) || n = 0x2028 || n = 0x2029 || n = 0x202F ||
    n = 0x205F || n = 0x3000

/-- ASCII digit test (model of `char::is_ascii_digit` / the `'0'..='9'`
range pattern), phrased on code points. -/
def isDigitC (c : Char) : Bool := 48 ≤ c.toNat && c.toNat ≤ 57

/-- Number of UTF-8 bytes used to encode one `char` (model of `char::len_utf8`). -/
def utf8Size (c : Char) : ℕ :=
  if c.toNat < 0x80 then 1
  else if c.toNat < 0x800 then 2
  else if c.toNat < 0x10000 then 3
  else 4

/-- Byte length of a string (model of `str::len`). -/
def utf8Len (s : Str) : ℕ := (s.map utf8Size).sum

/-- Model of `str::trim_start`. -/
def trimStart (s : Str) : Str := s.dropWhile isWs

/-- Model of `str::trim_end`, phrased recursively. -/
def trimEnd : Str → Str
  | [] => []
  | c :: t =>
    match trimEnd t with
    | [] => if isWs c then [] else [c]
    | r => c :: r

/-- Model of `str::trim`. -/
def trim (s : Str) : Str := trimEnd (trimStart s)

/-- Join a list of strings with a separator (model of `[String]::join`). -/
def joinSep (sep : Str) : List Str → Str
  | [] => []
  | [x] => x
  | x :: xs => x ++ sep ++ joinSep sep xs

/-- Worker for `splitWs`: `acc` is the current word, reversed. -/
def splitWsAux : Str → Str → List Str
  | acc, [] => if acc = [] then [] else [acc.reverse]
  | acc, c :: t =>
    if isWs c then
      if acc = [] then splitWsAux [] t else acc.reverse :: splitWsAux [] t
    else
      splitWsAux (c :: acc) t

/-- Model of `str::split_whitespace` (maximal whitespace runs as
separators, no empty pieces). -/
def splitWs (s : Str) : List Str := splitWsAux [] s

/-- Worker for `splitChar`. -/
def splitCharAux (sep : Char) : Str → Str → List Str
  | acc, [] => [acc.reverse]
  | acc, c :: t =>
    if c = sep then acc.reverse :: splitCharAux sep [] t
    else splitCharAux sep (c :: acc) t

/-- Model of `str::split` on a single `char` (keeps empty pieces; the split
of `""` is `[""]`). -/
def splitChar (sep : Char) (s : Str) : List Str := splitCharAux sep [] s

/-- Worker for `splitOnSub`. -/
def splitOnSubAux (pat : Str) : Str → Str → List Str
  | acc, [] => [acc.reverse]
  | acc, c :: t =>
    if pat.isPrefixOf (c :: t) ∧ pat ≠ [] then
      acc.reverse :: splitOnSubAux pat [] ((c :: t).drop pat.length)
    else
      splitOnSubAux pat (c :: acc) t
termination_by _ s => s.length
decreasing_by
  · simp only [List.length_drop, List.length_cons]
    have hp : 1 ≤ pat.length := by
      rcases pat with _ | ⟨p, ps⟩
      · simp_all
      · simp
    omega
  · simp

/-- Model of `str::split` on a multi-character literal pattern
(non-overlapping, left to right, keeps empty pieces). -/
def splitOnSub (pat : Str) (s : Str) : List Str := splitOnSubAux pat [] s

/-- Lexicographic comparison of strings by code point, the model of
`str::cmp` (byte-lexicographic order on UTF-8 coincides with code-point
order). -/
def lexCmp : Str → Str → Ordering
  | [], [] => .eq
  | [], _ :: _ => .lt
  | _ :: _, [] => .gt
  | a :: as, b :: bs =>
    if a.toNat < b.toNat then .lt
    else if b.toNat < a.toNat then .gt
    else lexCmp as bs

/-! ### Decimal rendering and parsing of numbers -/

/-- One decimal digit as a character. -/
def digitChar (n : ℕ) : Char := Char.ofNat (48 + n)

/-- Fueled decimal rendering worker (fuel-indexed so that the kernel can
evaluate it; `natToStr` supplies enough fuel). -/
def natToStrGo : ℕ → ℕ → Str
  | 0, _ => []
  | fuel + 1, n =>
    if n < 10 then [digitChar n]
    else natToStrGo fuel (n / 10) ++ [digitChar (n % 10)]

/-- Decimal rendering of a natural number (model of `format!("{}", n)`). -/
def natToStr (n : ℕ) : Str := natToStrGo (n + 1) n

/-- Decimal rendering of an integer (model of `format!("{}", z)`). -/
def intToStr (z : ℤ) : Str :=
  if z < 0 then '-' :: natToStr z.natAbs else natToStr z.natAbs

/-- Accumulating decimal parser for digit strings. -/
def parseNatAux : ℕ → Str → ℕ
  | acc, [] => acc
  | acc, c :: t => parseNatAux (acc * 10 + (c.toNat - 48)) t

/-- Value of a string of decimal digits. -/
def parseNat (s : Str) : ℕ := parseNatAux 0 s

/-- Exact-value model of `str::parse::<f64>` on the character set
`[+-0-9.eE]`: an optional sign, a mantissa containing at least one digit
and at most one dot, and an optional exponent (`e`/`E`, optional sign, at
least one digit).  Returns the exact rational value, with none of `f64`'s
rounding; it is only applied to prefixes produced by `scanNum`, which never
contain the `inf`/`nan` forms that the full grammar also accepts. -/
def parseF64? (s : Str) : Option ℚ :=
  let (sgn, s1) : ℤ × Str :=
    match s with
    | '+' :: r => (1, r)
    | '-' :: r => (-1, r)
    | _ => (1, s)
  let mant := s1.takeWhile (fun c => c ≠ 'e' ∧ c ≠ 'E')
  let rest := s1.dropWhile (fun c => c ≠ 'e' ∧ c ≠ 'E')
  let ip := mant.takeWhile (fun c => c ≠ '.')
  let fpDot := mant.dropWhile (fun c => c ≠ '.')
  let fp := fpDot.drop 1
  if ip.all isDigitC ∧ fp.all isDigitC ∧ (ip ≠ [] ∨ fp ≠ []) then
    let mval : ℚ := mkRat (sgn * (parseNat ip * 10 ^ fp.length + parseNat fp)) (10 ^ fp.length)
    match rest with
    | [] => some mval
    | _ :: expPart =>
      let (esgn, ed) : ℤ × Str :=
        match expPart with
        | '+' :: r => (1, r)
        | '-' :: r => (-1, r)
        | _ => (1, expPart)
      if ed ≠ [] ∧ ed.all isDigitC then
        let e : ℤ := esgn * parseNat ed
        some (if 0 ≤ e then qMul mval (mkRat (10 ^ e.natAbs) 1)
              else qDiv mval (mkRat (10 ^ e.natAbs) 1))
      else none
  else none

/-- Validity model of `str::parse::<f64>` on arbitrary strings: the full
grammar, including the `inf`/`infinity`/`nan` keywords (case-insensitive,
optionally signed).  Only the `is_ok()` result is modelled here. -/
def parseF64Ok (s : Str) : Bool :=
  let s1 :=
    match s with
    | '+' :: r => r
    | '-' :: r => r
    | _ => s
  let low := s1.map Char.toLower
  if low = str "inf" || low = str "infinity" || low = str "nan" then true
  else
    let mant := s1.takeWhile (fun c => c ≠ 'e' ∧ c ≠ 'E')
    let rest := s1.dropWhile (fun c => c ≠ 'e' ∧ c ≠ 'E')
    let ip := mant.takeWhile (fun c => c ≠ '.')
    let fpDot := mant.dropWhile (fun c => c ≠ '.')
    let fp := fpDot.drop 1
    let mantOk := ip.all isDigitC && fp.all isDigitC &&
      (!ip.isEmpty || !fp.isEmpty)
    let expOk :=
      match rest with
      | [] => true
      | _ :: expPart =>
        let ed :=
          match expPart with
          | '+' :: r => r
          | '-' :: r => r
          | _ => expPart
        !ed.isEmpty && ed.all isDigitC
    mantOk && expOk

/-- Value of a string of hexadecimal digits. -/
def parseHexNat (s : Str) : ℕ :=
  s.foldl (fun acc c =>
    acc * 16 + (if isDigitC c then c.toNat - 48
                else if 'a' ≤ c ∧ c ≤ 'f' then c.toNat - 87
                else c.toNat - 55)) 0

/-- Validity model of `i64::from_str_radix(s, 16).is_ok()`: an optional
sign, at least one hex digit, and no overflow of the `i64` range. -/
def hexI64Ok (s : Str) : Bool :=
  let (neg, d) : Bool × Str :=
    match s with
    | '+' :: r => (false, r)
    | '-' :: r => (true, r)
    | _ => (false, s)
  !d.isEmpty && d.all (fun c => isDigitC c || ('a' ≤ c && c ≤ 'f') || ('A' ≤ c && c ≤ 'F')) &&
    (if neg then parseHexNat (d.map Char.toLower) ≤ 2 ^ 63
     else parseHexNat (d.map Char.toLower) ≤ 2 ^ 63 - 1)

/-! ### The numeric-prefix scanner of `Value::to_number` (value.rs:70-98)

The source walks `chars[end_pos]` with mutable `end_pos`, `has_dot`,
`has_e`; here the walk is over the remaining characters, with `pos` the
number of characters already accepted. -/

/-- The scanning loop of `Value::to_number`.  Returns the final `end_pos`. -/
def scanNum : Str → ℕ → Bool → Bool → ℕ
  | [], pos, _, _ => pos
  | c :: rest, pos, hasDot, hasE =>
    if isDigitC c then scanNum rest (pos + 1) hasDot hasE
    else if c = '.' ∧ ¬hasDot ∧ ¬hasE then scanNum rest (pos + 1) true hasE
    else if (c = 'e' ∨ c = 'E') ∧ ¬hasE ∧ 0 < pos then
      match rest with
      | c2 :: rest2 =>
        if c2 = '+' ∨ c2 = '-' then scanNum rest2 (pos + 2) hasDot true
        else scanNum (c2 :: rest2) (pos + 1) hasDot true
      | [] => pos + 1
    else pos

/-- `end_pos` computed by `Value::to_number` on the trimmed string: one
for a leading sign, then the scanning loop. -/
def scanLen (s : Str) : ℕ :=
  match s with
  | c :: rest => if c = '+' ∨ c = '-' then scanNum rest 1 false false else scanNum s 0 false false
  | [] => 0

/-! ### Oracles for floating-point library calls and the `regex` crate -/

/-- Abstraction of the `f64` operations that have no exact rational
counterpart, plus the decimal renderings used by `format_value`. -/
structure FloatOps where
  sinF : ℚ → ℚ
  cosF : ℚ → ℚ
  expF : ℚ → ℚ
  logF : ℚ → ℚ
  sqrtF : ℚ → ℚ
  atan2F : ℚ → ℚ → ℚ
  powf : ℚ → ℚ → ℚ
  randF : ℚ
  fmtFixed0 : ℚ → Str
  fmtFixed6 : ℚ → Str
  fmtSciL : ℚ → Str
  fmtSciU : ℚ → Str

/-- A trivial instantiation of the oracle, used by concrete witnesses. -/
def FloatOps.zero : FloatOps :=
  ⟨fun _ => 0, fun _ => 0, fun _ => 0, fun _ => 0, fun _ => 0,
   fun _ _ => 0, fun _ _ => 0, 0, fun _ => [], fun _ => [], fun _ => [], fun _ => []⟩

/-- Abstraction of the `regex` crate: whether `Regex::new` succeeds on a
pattern, and the behaviour of the compiled regex.  `findIdx` returns a
byte offset and byte length, as `Match::start`/`len` do. -/
structure RegexImpl where
  compilable : Str → Bool
  isMatch : Str → Str → Bool
  splitRe : Str → Str → List Str
  replaceAll : Str → Str → Str → Str
  replaceFirst : Str → Str → Str → Str
  countMatches : Str → Str → ℕ
  findIdx : Str → Str → Option (ℕ × ℕ)

/-- A trivial instantiation in which no pattern compiles, used by concrete
witnesses. -/
def RegexImpl.none : RegexImpl :=
  ⟨fun _ => false, fun _ _ => false, fun _ _ => [], fun _ _ _ => [],
   fun _ _ _ => [], fun _ _ => 0, fun _ _ => Option.none⟩

/-! ### Errors (errors.rs) -/

/-- The `FastAwkError` variants reachable from the embedded code, plus the
model-only `OutOfFuel`. -/
inductive Err where
  | DivisionByZero
  | Runtime (msg : Str)
  | UndefinedFunction (name : Str)
  | InvalidFunctionCall (name got req : Str)
  | InvalidFormatSpecifier (spec : Str)
  | RegexCompile (pat : Str)
  | OutOfFuel
deriving DecidableEq

/-! ### `Value` (value.rs) -/

/-- The dynamically typed AWK value.  `Array` is an association list
modelling a `HashMap<String, Value>` (iteration order of the map is
arbitrary in the source; the model fixes insertion order). -/
inductive Value where
  | String (s : Str)
  | Number (n : ℚ)
  | Array (m : List (Str × Value))
  | Undefined

/-- i64::MAX. -/
def i64Max : ℤ := 2 ^ 63 - 1

/-- i64::MIN. -/
def i64Min : ℤ := -(2 ^ 63)

/-- Count of the factor `p` in `n` (fuel-indexed so the kernel can
evaluate it; used to find the minimal decimal exponent of a fraction). -/
def factorCountGo (p : ℕ) : ℕ → ℕ → ℕ
  | 0, _ => 0
  | fuel + 1, n => if 2 ≤ p ∧ n ≠ 0 ∧ n % p = 0 then factorCountGo p fuel (n / p) + 1 else 0

/-- Count of the factor `p` in `n`. -/
def factorCount (p n : ℕ) : ℕ := factorCountGo p n n

/-- The minimal `k` with `d ∣ 10 ^ k`, when the denominator `d` has only
the prime factors 2 and 5. -/
def decExp (d : ℕ) : ℕ := max (factorCount 2 d) (factorCount 5 d)

/-- Model of `format!("{}", x)` on a non-integral `f64`: Rust prints the
shortest decimal representation, which for a terminating fraction
`m / 10^k` (with minimal `k`) is the plain decimal with `k` fractional
digits.  (On a `ℚ` whose decimal expansion does not terminate — which
cannot arise from an `f64` — this renders a truncation and is never used
by the round-trip theorem.) -/
def displayRat (q : ℚ) : Str :=
  let k := decExp q.den
  let m : ℤ := qMul q (mkRat (10 ^ k) 1) |>.num
  if k = 0 then intToStr m
  else
    let fr := natToStr (m.natAbs % 10 ^ k)
    (if m < 0 then ['-'] else []) ++ natToStr (m.natAbs / 10 ^ k) ++
      ['.'] ++ (List.replicate (k - fr.length) '0' ++ fr)

/-- The `Value::Number` arm of `to_string` (value.rs:47-52): integral
values in the `i64` range are printed through an `as i64` cast (which
saturates; `i64::MAX as f64` rounds up to `2^63`, so the range test admits
`2^63` itself), everything else through `f64`'s `Display`. -/
def fmtNumber (q : ℚ) : Str :=
  if q.den = 1 ∧ i64Min ≤ q.num ∧ q.num ≤ 2 ^ 63 then intToStr (min q.num i64Max)
  else displayRat q

namespace Value

/-- Model of `Value::to_string` (value.rs:44-57). -/
def to_string : Value → Str
  | .String s => s
  | .Number n => fmtNumber n
  | .Array _ => str "[array]"
  | .Undefined => []

/-- Model of `Value::to_number` (value.rs:60-108): trim, scan the longest
sign/digit/dot/exponent-marker prefix, and parse it, with `0` both when
nothing was scanned (or only a sign) and when the scanned prefix fails to
parse (`unwrap_or(0.0)`). -/
def to_number : Value → ℚ
  | .Number n => n
  | .String s =>
    let trimmed := trim s
    if trimmed = [] then 0
    else
      let ep := scanLen trimmed
      if ep = 0 ∨ (ep = 1 ∧ (trimmed.headD ' ' = '+' ∨ trimmed.headD ' ' = '-')) then 0
      else (parseF64? (trimmed.take ep)).getD 0
  | .Array arr => (arr.length : ℚ)
  | .Undefined => 0

/-- Model of `Value::to_bool` (value.rs:112-119). -/
def to_bool : Value → Bool
  | .String s => !s.isEmpty
  | .Number n => decide (n ≠ 0)
  | .Array arr => !arr.isEmpty
  | .Undefined => false

/-- Model of `Value::looks_like_number` (value.rs:215-229). -/
def looks_like_number : Value → Bool
  | .Number _ => true
  | .String s =>
    let trimmed := trim s
    !trimmed.isEmpty &&
      (parseF64Ok trimmed ||
        (((str "0x").isPrefixOf trimmed || (str "0X").isPrefixOf trimmed) &&
          hexI64Ok (trimmed.drop 2)))
  | _ => false

/-- Model of `Value::compare_string` (value.rs:182-184). -/
def compare_string (a b : Value) : Ordering := lexCmp a.to_string b.to_string

/-- Model of `Value::compare_numeric` (value.rs:187-189); on `ℚ`,
`partial_cmp` is never `None`, so the `unwrap_or(Equal)` is inert. -/
def compare_numeric (a b : Value) : Ordering :=
  if qLtB a.to_number b.to_number then .lt
  else if qLtB b.to_number a.to_number then .gt
  else .eq

/-- Model of `Value::compare` (value.rs:192-212). -/
def compare (a b : Value) : Ordering :=
  match a, b with
  | .Number _, .Number _ => a.compare_numeric b
  | .String s1, .String s2 =>
    if a.looks_like_number && b.looks_like_number then a.compare_numeric b
    else lexCmp s1 s2
  | _, _ =>
    if a.looks_like_number && b.looks_like_number then a.compare_numeric b
    else a.compare_string b

/-- Model of `Value::add` (value.rs:232-234). -/
def add (a b : Value) : Except Err Value :=
  .ok (.Number (qAdd a.to_number b.to_number))

/-- Model of `Value::subtract` (value.rs:237-239). -/
def subtract (a b : Value) : Except Err Value :=
  .ok (.Number (qSub a.to_number b.to_number))

/-- Model of `Value::multiply` (value.rs:242-244). -/
def multiply (a b : Value) : Except Err Value :=
  .ok (.Number (qMul a.to_number b.to_number))

/-- Model of `Value::divide` (value.rs:247-253). -/
def divide (a b : Value) : Except Err Value :=
  let divisor := b.to_number
  if divisor = 0 then .error .DivisionByZero
  else .ok (.Number (qDiv a.to_number divisor))

/-- Model of the `%` operator on `f64` (truncated remainder). -/
def fRem (x y : ℚ) : ℚ := qSub x (qMul y (mkRat (qTruncZ (qDiv x y)) 1))

/-- Model of `Value::modulo` (value.rs:256-262). -/
def modulo (a b : Value) : Except Err Value :=
  let divisor := b.to_number
  if divisor = 0 then .error .DivisionByZero
  else .ok (.Number (fRem a.to_number divisor))

/-- Model of `Value::power` (value.rs:265-267); `f64::powf` is oracular. -/
def power (F : FloatOps) (a b : Value) : Except Err Value :=
  .ok (.Number (F.powf a.to_number b.to_number))

/-- Model of `Value::concatenate` (value.rs:270-272). -/
def concatenate (a b : Value) : Value := .String (a.to_string ++ b.to_string)

/-- Model of `Value::string_len` (value.rs:285-287, `str::len` = bytes). -/
def string_len (a : Value) : ℕ := utf8Len a.to_string

/-- Lookup in an association-list array. -/
def lookupA (m : List (Str × Value)) (k : Str) : Option Value :=
  match m with
  | [] => Option.none
  | (k1, v) :: rest => if k1 = k then some v else lookupA rest k

/-- Insert into an association-list array, replacing in place as
`HashMap::insert` does. -/
def insertA (m : List (Str × Value)) (k : Str) (v : Value) : List (Str × Value) :=
  match m with
  | [] => [(k, v)]
  | (k1, v1) :: rest => if k1 = k then (k, v) :: rest else (k1, v1) :: insertA rest k v

/-- Effect of `Value::get_array_element` as seen by the interpreter's
`ArrayRef` evaluation: the source calls it on a clone and returns a clone
of the entry, so the get-or-create mutation is discarded and the result is
the stored value or `Undefined`. -/
def array_get (v : Value) (k : Str) : Value :=
  match v with
  | .Array m => (lookupA m k).getD .Undefined
  | _ => .Undefined

/-- Model of `Value::set_array_element` (value.rs:139-155): inserts into
an array, converting any non-array in place to a fresh array first. -/
def set_array_element (v : Value) (k : Str) (x : Value) : Value :=
  match v with
  | .Array m => .Array (insertA m k x)
  | _ => .Array [(k, x)]

/-- Model of `Value::has_array_key` (value.rs:158-163). -/
def has_array_key (v : Value) (k : Str) : Bool :=
  match v with
  | .Array m => (lookupA m k).isSome
  | _ => false

/-- Model of `Value::array_keys` (value.rs:166-171). -/
def array_keys : Value → List Str
  | .Array m => m.map Prod.fst
  | _ => []

end Value

/-! ### AST (ast.rs) -/

/-- Model of `ast::Expression` (ast.rs:83-157). -/
inductive Expression where
  | Literal (v : Value)
  | Identifier (name : Str)
  | FieldRef (e : Expression)
  | ArrayRef (array index : Expression)
  | Add (l r : Expression)
  | Subtract (l r : Expression)
  | Multiply (l r : Expression)
  | Divide (l r : Expression)
  | Modulo (l r : Expression)
  | Power (l r : Expression)
  | UnaryMinus (e : Expression)
  | UnaryPlus (e : Expression)
  | Equal (l r : Expression)
  | NotEqual (l r : Expression)
  | Less (l r : Expression)
  | LessEqual (l r : Expression)
  | Greater (l r : Expression)
  | GreaterEqual (l r : Expression)
  | MatchRe (l r : Expression)
  | NotMatchRe (l r : Expression)
  | And (l r : Expression)
  | Or (l r : Expression)
  | Not (e : Expression)
  | Concatenate (l r : Expression)
  | In (l r : Expression)
  | Assign (l r : Expression)
  | AddAssign (l r : Expression)
  | SubtractAssign (l r : Expression)
  | MultiplyAssign (l r : Expression)
  | DivideAssign (l r : Expression)
  | ModuloAssign (l r : Expression)
  | PowerAssign (l r : Expression)
  | PreIncrement (e : Expression)
  | PostIncrement (e : Expression)
  | PreDecrement (e : Expression)
  | PostDecrement (e : Expression)
  | Ternary (condition true_expr false_expr : Expression)
  | FunctionCall (name : Str) (arguments : List Expression)
  | Getline (targetSrc : Option (Expression × Option Expression))
  | Regex (pattern : Str)

/-- Model of `ast::OutputTarget` (print/printf redirection, ignored by the
interpreter). -/
inductive OutputTarget where
  | File (e : Expression)
  | Pipe (e : Expression)

/-- Model of `ast::Statement` (ast.rs:30-61); `Print`/`Printf` carry their
expression lists inline. -/
inductive Statement where
  | Expr (e : Expression)
  | Block (stmts : List Statement)
  | If (condition : Expression) (then_stmt : Statement) (else_stmt : Option Statement)
  | While (condition : Expression) (body : Statement)
  | For (init condition update : Option Expression) (body : Statement)
  | ForIn (varName : Str) (array : Expression) (body : Statement)
  | Break
  | Continue
  | Next
  | Exit (e : Option Expression)
  | Return (e : Option Expression)
  | Delete (e : Expression)
  | Print (expressions : List Expression) (output_target : Option OutputTarget)
  | Printf (format : Expression) (arguments : List Expression)
      (output_target : Option OutputTarget)

/-- Model of `ast::Pattern`. -/
inductive Pattern where
  | Begin
  | End
  | Expr (e : Expression)
  | Range (start stop : Pattern)

/-- Model of `ast::Action`: an ordered statement list. -/
structure Action where
  statements : List Statement

/-- Model of `ast::Rule`. -/
structure Rule where
  pattern : Option Pattern
  action : Action

/-- Model of `ast::Function`. -/
structure Function where
  name : Str
  parameters : List Str
  body : Action

/-- Model of `ast::Program`; the `HashMap` of functions is an association
list keyed by name. -/
structure Program where
  rules : List Rule
  functions : List (Str × Function)

/-- Model of `Program::get_begin_rules` (ast.rs:190-194). -/
def Program.get_begin_rules (p : Program) : List Rule :=
  p.rules.filter fun rule =>
    match rule.pattern with
    | some .Begin => true
    | _ => false

/-- Model of `Program::get_end_rules` (ast.rs:196-200). -/
def Program.get_end_rules (p : Program) : List Rule :=
  p.rules.filter fun rule =>
    match rule.pattern with
    | some .End => true
    | _ => false

/-- Model of `Program::get_main_rules` (ast.rs:202-206). -/
def Program.get_main_rules (p : Program) : List Rule :=
  p.rules.filter fun rule =>
    match rule.pattern with
    | some .Begin => false
    | some .End => false
    | _ => true

/-! ### RuntimeContext (runtime.rs) -/

/-- Model of `runtime::ControlFlow` (runtime.rs:43-51). -/
inductive ControlFlow where
  | None
  | Break
  | Continue
  | Next
  | Exit (code : ℤ)
  | Return (value : Value)

/-- Model of `runtime::CallFrame` (runtime.rs:53-57). -/
structure CallFrame where
  function_name : Str
  vars : List (Str × Value)

/-- Model of `runtime::RuntimeContext` (runtime.rs:7-41).  The
`regex_cache` field (a pure memoization of `Regex::new`) is replaced by
the ambient `RegexImpl` oracle, and the `output` field models the bytes
written to stdout by `print!`/`println!`. -/
structure RuntimeContext where
  vars : List (Str × Value)
  built_in_vars : List (Str × Value)
  fields : List Str
  nr : ℕ
  filename : Str
  fs : Str
  ofs : Str
  rs : Str
  ors : Str
  subsep : Str
  rstart : ℕ
  rlength : ℕ
  exit_code : Option ℤ
  control_flow : ControlFlow
  call_stack : List CallFrame
  output : List Str

namespace RuntimeContext

/-- Model of `RuntimeContext::update_built_in_vars` (runtime.rs:138-149). -/
def update_built_in_vars (ctx : RuntimeContext) : RuntimeContext :=
  { ctx with built_in_vars :=
      let m := ctx.built_in_vars
      let m := Value.insertA m (str "NR") (.Number (ctx.nr : ℚ))
      let m := Value.insertA m (str "NF") (.Number ((ctx.fields.length - 1 : ℕ) : ℚ))
      let m := Value.insertA m (str "FILENAME") (.String ctx.filename)
      let m := Value.insertA m (str "FS") (.String ctx.fs)
      let m := Value.insertA m (str "OFS") (.String ctx.ofs)
      let m := Value.insertA m (str "RS") (.String ctx.rs)
      let m := Value.insertA m (str "ORS") (.String ctx.ors)
      let m := Value.insertA m (str "SUBSEP") (.String ctx.subsep)
      let m := Value.insertA m (str "RSTART") (.Number (ctx.rstart : ℚ))
      let m := Value.insertA m (str "RLENGTH") (.Number (ctx.rlength : ℚ))
      m }

/-- Model of `RuntimeContext::new` (runtime.rs:60-83). -/
def new : RuntimeContext :=
  update_built_in_vars
    { vars := []
      built_in_vars := []
      fields := []
      nr := 0
      filename := []
      fs := [' ']
      ofs := [' ']
      rs := ['\n']
      ors := ['\n']
      subsep := [Char.ofNat 28]
      rstart := 0
      rlength := 0
      exit_code := Option.none
      control_flow := .None
      call_stack := []
      output := [] }

/-- Model of `RuntimeContext::parse_fields` (runtime.rs:103-136): `$0` is
the whole record; the rest is split by the current `FS` — default
(`" "`) on whitespace runs, a single-byte `FS` literally on that
character, a longer `FS` as a regex, falling back to a literal substring
split when the regex does not compile. -/
def parse_fields (R : RegexImpl) (ctx : RuntimeContext) (record : Str) : RuntimeContext :=
  let rest :=
    if ctx.fs = [' '] then splitWs record
    else if utf8Len ctx.fs = 1 then splitChar (ctx.fs.headD ' ') record
    else if R.compilable ctx.fs then R.splitRe ctx.fs record
    else splitOnSub ctx.fs record
  { ctx with fields := record :: rest }

/-- Model of `RuntimeContext::set_current_record` (runtime.rs:92-96). -/
def set_current_record (R : RegexImpl) (ctx : RuntimeContext) (record : Str) : RuntimeContext :=
  update_built_in_vars (parse_fields R { ctx with nr := ctx.nr + 1 } record)

/-- Model of `RuntimeContext::set_filename` (runtime.rs:98-101). -/
def set_filename (ctx : RuntimeContext) (f : Str) : RuntimeContext :=
  update_built_in_vars { ctx with filename := f }

/-- Model of `RuntimeContext::get_variable` (runtime.rs:151-166):
built-ins first, then the top call frame, then globals. -/
def get_variable (ctx : RuntimeContext) (name : Str) : Value :=
  match Value.lookupA ctx.built_in_vars name with
  | some v => v
  | Option.none =>
    match ctx.call_stack with
    | frame :: _ =>
      match Value.lookupA frame.vars name with
      | some v => v
      | Option.none => (Value.lookupA ctx.vars name).getD .Undefined
    | [] => (Value.lookupA ctx.vars name).getD .Undefined

/-- Model of `RuntimeContext::set_variable` (runtime.rs:168-203). -/
def set_variable (ctx : RuntimeContext) (name : Str) (v : Value) : RuntimeContext :=
  if name = str "FS" then update_built_in_vars { ctx with fs := v.to_string }
  else if name = str "OFS" then update_built_in_vars { ctx with ofs := v.to_string }
  else if name = str "RS" then update_built_in_vars { ctx with rs := v.to_string }
  else if name = str "ORS" then update_built_in_vars { ctx with ors := v.to_string }
  else if name = str "SUBSEP" then update_built_in_vars { ctx with subsep := v.to_string }
  else if name = str "NR" ∨ name = str "NF" ∨ name = str "FILENAME" ∨
      name = str "RSTART" ∨ name = str "RLENGTH" then ctx
  else
    match ctx.call_stack with
    | frame :: rest =>
      { ctx with call_stack :=
          { frame with vars := Value.insertA frame.vars name v } :: rest }
    | [] => { ctx with vars := Value.insertA ctx.vars name v }

/-- Model of `RuntimeContext::get_field` (runtime.rs:205-211). -/
def get_field (ctx : RuntimeContext) (index : ℕ) : Str :=
  ctx.fields.getD index []

/-- Rebuild `$0` from the other fields (runtime.rs:229-233). -/
def rebuild_record (ctx : RuntimeContext) : RuntimeContext :=
  if 1 < ctx.fields.length then
    { ctx with fields :=
        joinSep ctx.ofs (ctx.fields.drop 1) :: ctx.fields.drop 1 }
  else ctx

/-- Model of `RuntimeContext::set_field` (runtime.rs:213-227): extend the
field vector with empty strings as needed, set the field, rebuild `$0`
when a field other than `$0` was set, and re-synchronize built-ins. -/
def set_field (ctx : RuntimeContext) (index : ℕ) (value : Str) : RuntimeContext :=
  let padded := ctx.fields ++ List.replicate (index + 1 - ctx.fields.length) []
  let ctx := { ctx with fields := padded.set index value }
  let ctx := if 0 < index then rebuild_record ctx else ctx
  update_built_in_vars ctx

/-- Model of `RuntimeContext::push_call_frame` (runtime.rs:245-250). -/
def push_call_frame (ctx : RuntimeContext) (fn : Str) : RuntimeContext :=
  { ctx with call_stack := { function_name := fn, vars := [] } :: ctx.call_stack }

/-- Model of `RuntimeContext::pop_call_frame` (runtime.rs:252-254). -/
def pop_call_frame (ctx : RuntimeContext) : RuntimeContext :=
  { ctx with call_stack := ctx.call_stack.tail }

/-- Model of `RuntimeContext::set_control_flow`. -/
def set_control_flow (ctx : RuntimeContext) (flow : ControlFlow) : RuntimeContext :=
  { ctx with control_flow := flow }

/-- Model of `RuntimeContext::clear_control_flow`. -/
def clear_control_flow (ctx : RuntimeContext) : RuntimeContext :=
  { ctx with control_flow := .None }

/-- Model of `RuntimeContext::has_control_flow`. -/
def has_control_flow (ctx : RuntimeContext) : Bool :=
  match ctx.control_flow with
  | .None => false
  | _ => true

/-- Model of `RuntimeContext::set_exit_code` (runtime.rs:268-271): records
the exit code and raises the `Exit` signal. -/
def set_exit_code (ctx : RuntimeContext) (code : ℤ) : RuntimeContext :=
  { ctx with exit_code := some code, control_flow := .Exit code }

end RuntimeContext

/-! ### Numeric casts used by the interpreter and built-ins -/

/-- Model of `f64 as usize` (truncate toward zero, saturate below at 0; the
upper saturation bound `usize::MAX` exceeds every list length that can
occur and is omitted). -/
def qToUsize (q : ℚ) : ℕ := (qTruncZ q).toNat

/-- Model of `f64 as i32` (truncate toward zero, saturating). -/
def qToI32 (q : ℚ) : ℤ := min (max (qTruncZ q) (-(2 ^ 31))) (2 ^ 31 - 1)

/-- Model of `f64 as u64` (truncate toward zero, saturating). -/
def qToU64 (q : ℚ) : ℕ := min (qTruncZ q).toNat (2 ^ 64 - 1)

/-- Model of `f64 as u8` (truncate toward zero, saturating). -/
def qToU8 (q : ℚ) : ℕ := min (qTruncZ q).toNat 255

/-- Digit character in bases up to 16. -/
def baseDigitChar (up : Bool) (n : ℕ) : Char :=
  if n < 10 then digitChar n else Char.ofNat ((if up then 55 else 87) + n)

/-- Fueled base-`b` rendering worker. -/
def natToBaseGo (b : ℕ) (up : Bool) : ℕ → ℕ → Str
  | 0, _ => []
  | fuel + 1, n =>
    if n < b then [baseDigitChar up n]
    else natToBaseGo b up fuel (n / b) ++ [baseDigitChar up (n % b)]

/-- Base-`b` rendering of a natural number (model of `format!("{:o}", n)` /
`{:x}` / `{:X}`). -/
def natToBase (b : ℕ) (up : Bool) (n : ℕ) : Str := natToBaseGo b up (n + 1) n

/-- Model of `RuntimeContext::get_regex` as used through `?`: success iff
the pattern compiles (the cache only memoizes the compilation). -/
def get_regex (R : RegexImpl) (pat : Str) : Except Err Unit :=
  if R.compilable pat then .ok () else .error (.RegexCompile pat)

/-- Byte offset of the first occurrence of `sub` (model of `str::find`). -/
def strFindB (sub : Str) : Str → ℕ → Option ℕ
  | [], i => if sub.isEmpty then some i else Option.none
  | c :: t, i =>
    if sub.isPrefixOf (c :: t) then some i else strFindB sub t (i + utf8Size c)

namespace RuntimeContext

/-- Arity error helper (`FastAwkError::invalid_function_call`). -/
def arityErr (name : Str) (n : ℕ) (req : String) : Err :=
  .InvalidFunctionCall name (natToStr n ++ (str " arguments")) (str req)

/-- Model of `RuntimeContext::builtin_length` (runtime.rs:274-281):
`str::len` counts bytes. -/
def builtin_length (ctx : RuntimeContext) (args : List Value) :
    Except Err (Value × RuntimeContext) :=
  let s := match args with
    | [] => ctx.get_field 0
    | a :: _ => a.to_string
  .ok (.Number (utf8Len s : ℚ), ctx)

/-- Model of `RuntimeContext::builtin_substr` (runtime.rs:284-309):
1-indexed, `chars().skip().take()`. -/
def builtin_substr (ctx : RuntimeContext) (args : List Value) :
    Except Err (Value × RuntimeContext) :=
  if args.length < 2 then .error (arityErr (str "substr") args.length "requires at least 2 arguments")
  else
    let s := (args.headD .Undefined).to_string
    let start := qToUsize (args.getD 1 .Undefined).to_number
    let start_index := if 0 < start then start - 1 else 0
    let result :=
      if 2 < args.length then
        (s.drop start_index).take (qToUsize (args.getD 2 .Undefined).to_number)
      else s.drop start_index
    .ok (.String result, ctx)

/-- Model of `RuntimeContext::builtin_index` (runtime.rs:312-329):
1-based byte position, or 0 when absent. -/
def builtin_index (ctx : RuntimeContext) (args : List Value) :
    Except Err (Value × RuntimeContext) :=
  if args.length ≠ 2 then .error (arityErr (str "index") args.length "requires exactly 2 arguments")
  else
    let s := (args.headD .Undefined).to_string
    let sub := (args.getD 1 .Undefined).to_string
    let position : ℕ :=
      match strFindB sub s 0 with
      | some p => p + 1
      | Option.none => 0
    .ok (.Number (position : ℚ), ctx)

/-- Array built by `builtin_split`: keys `"1"`, `"2"`, … in order. -/
def splitArrayGo : ℕ → List Str → List (Str × Value)
  | _, [] => []
  | i, p :: ps => (natToStr (i + 1), .String p) :: splitArrayGo (i + 1) ps

/-- Model of `RuntimeContext::builtin_split` (runtime.rs:332-372). -/
def builtin_split (R : RegexImpl) (ctx : RuntimeContext) (args : List Value) :
    Except Err (Value × RuntimeContext) :=
  if args.length < 2 then .error (arityErr (str "split") args.length "requires at least 2 arguments")
  else
    let s := (args.headD .Undefined).to_string
    let array_name := (args.getD 1 .Undefined).to_string
    let separator := if 2 < args.length then (args.getD 2 .Undefined).to_string else ctx.fs
    let parts :=
      if separator = [' '] then splitWs s
      else if utf8Len separator = 1 then splitChar (separator.headD ' ') s
      else if R.compilable separator then R.splitRe separator s
      else [s]
    let ctx := ctx.set_variable array_name (.Array (splitArrayGo 0 parts))
    .ok (.Number (parts.length : ℚ), ctx)

/-- Model of `RuntimeContext::builtin_gsub` (runtime.rs:375-402). -/
def builtin_gsub (R : RegexImpl) (ctx : RuntimeContext) (args : List Value) :
    Except Err (Value × RuntimeContext) :=
  if args.length < 2 then .error (arityErr (str "gsub") args.length "requires at least 2 arguments")
  else
    let pattern := (args.headD .Undefined).to_string
    let replacement := (args.getD 1 .Undefined).to_string
    let target := if 2 < args.length then (args.getD 2 .Undefined).to_string else ctx.get_field 0
    match get_regex R pattern with
    | .error e => .error e
    | .ok _ =>
      let result := R.replaceAll pattern target replacement
      let count := R.countMatches pattern target
      let ctx := if args.length ≤ 2 then ctx.set_field 0 result else ctx
      .ok (.Number (count : ℚ), ctx)

/-- Model of `RuntimeContext::builtin_sub` (runtime.rs:405-432). -/
def builtin_sub (R : RegexImpl) (ctx : RuntimeContext) (args : List Value) :
    Except Err (Value × RuntimeContext) :=
  if args.length < 2 then .error (arityErr (str "sub") args.length "requires at least 2 arguments")
  else
    let pattern := (args.headD .Undefined).to_string
    let replacement := (args.getD 1 .Undefined).to_string
    let target := if 2 < args.length then (args.getD 2 .Undefined).to_string else ctx.get_field 0
    match get_regex R pattern with
    | .error e => .error e
    | .ok _ =>
      let result := R.replaceFirst pattern target replacement
      let count : ℕ := if result ≠ target then 1 else 0
      let ctx := if args.length ≤ 2 then ctx.set_field 0 result else ctx
      .ok (.Number (count : ℚ), ctx)

/-- Model of `RuntimeContext::builtin_match` (runtime.rs:435-460): sets
`RSTART`/`RLENGTH` (1-indexed position; 0/0 on no match). -/
def builtin_match (R : RegexImpl) (ctx : RuntimeContext) (args : List Value) :
    Except Err (Value × RuntimeContext) :=
  if args.length ≠ 2 then .error (arityErr (str "match") args.length "requires exactly 2 arguments")
  else
    let s := (args.headD .Undefined).to_string
    let pattern := (args.getD 1 .Undefined).to_string
    match get_regex R pattern with
    | .error e => .error e
    | .ok _ =>
      match R.findIdx pattern s with
      | some (st, len) =>
        let ctx := update_built_in_vars { ctx with rstart := st + 1, rlength := len }
        .ok (.Number ((st + 1 : ℕ) : ℚ), ctx)
      | Option.none =>
        let ctx := update_built_in_vars { ctx with rstart := 0, rlength := 0 }
        .ok (.Number 0, ctx)

/-- The conversion-terminating characters of `format_string`. -/
def convChars : Str := str "diouxXeEfFgGaAcsp"

/-- Collect a format specifier up to and including its conversion
character (the inner loop of `format_string`, runtime.rs:629-636). -/
def collectSpec : Str → (Str × Str)
  | [] => ([], [])
  | c :: t =>
    if convChars.contains c then ([c], t)
    else
      let (sp, r) := collectSpec t
      (c :: sp, r)

/-- Model of `RuntimeContext::format_value` (runtime.rs:653-673). -/
def format_value (F : FloatOps) (spec : Str) (v : Value) : Except Err Str :=
  match spec.getLastD 's' with
  | 'd' => .ok (F.fmtFixed0 v.to_number)
  | 'i' => .ok (F.fmtFixed0 v.to_number)
  | 'o' => .ok (natToBase 8 false (qToU64 v.to_number))
  | 'x' => .ok (natToBase 16 false (qToU64 v.to_number))
  | 'X' => .ok (natToBase 16 true (qToU64 v.to_number))
  | 'f' => .ok (F.fmtFixed6 v.to_number)
  | 'F' => .ok (F.fmtFixed6 v.to_number)
  | 'e' => .ok (F.fmtSciL v.to_number)
  | 'E' => .ok (F.fmtSciU v.to_number)
  | 'g' => .ok (F.fmtFixed6 v.to_number)
  | 'G' => .ok (F.fmtFixed6 v.to_number)
  | 'c' => .ok [Char.ofNat (qToU8 v.to_number)]
  | 's' => .ok v.to_string
  | _ => .error (.InvalidFormatSpecifier spec)

theorem collectSpec_len (s : Str) : (collectSpec s).2.length ≤ s.length := by
  induction s with
  | nil => simp [collectSpec]
  | cons c t ih =>
    simp only [collectSpec]
    split
    · simp
    · simpa using Nat.le_succ_of_le ih

/-- Worker for `format_string` (runtime.rs:609-650). -/
def format_string_go (F : FloatOps) (args : List Value) : Str → ℕ → Except Err Str
  | [], _ => .ok []
  | '%' :: '%' :: rest2, i => do
    let r ← format_string_go F args rest2 i
    .ok ('%' :: r)
  | '%' :: rest, i =>
    let spR := collectSpec rest
    let spec := '%' :: spR.1
    if i < args.length then do
      let formatted ← format_value F spec (args.getD i .Undefined)
      let r ← format_string_go F args spR.2 (i + 1)
      .ok (formatted ++ r)
    else do
      let r ← format_string_go F args spR.2 i
      .ok (spec ++ r)
  | c :: rest, i => do
    let r ← format_string_go F args rest i
    .ok (c :: r)
termination_by s _ => s.length
decreasing_by
  · simp only [List.length_cons]
    omega
  · exact Nat.lt_succ_of_le (collectSpec_len _)
  · exact Nat.lt_succ_of_le (collectSpec_len _)
  · simp

/-- Model of `RuntimeContext::format_string`. -/
def format_string (F : FloatOps) (fmt : Str) (args : List Value) : Except Err Str :=
  format_string_go F args fmt 0

/-- Model of `RuntimeContext::builtin_sprintf` (runtime.rs:463-475). -/
def builtin_sprintf (F : FloatOps) (ctx : RuntimeContext) (args : List Value) :
    Except Err (Value × RuntimeContext) :=
  match args with
  | [] => .error (arityErr (str "sprintf") 0 "requires at least 1 argument")
  | fmt :: rest => do
    let formatted ← format_string F fmt.to_string rest
    .ok (.String formatted, ctx)

/-- Model of `RuntimeContext::builtin_toupper` (runtime.rs:478-485); case
mapping is modelled on the ASCII range. -/
def builtin_toupper (ctx : RuntimeContext) (args : List Value) :
    Except Err (Value × RuntimeContext) :=
  let s := match args with
    | [] => ctx.get_field 0
    | a :: _ => a.to_string
  .ok (.String (s.map Char.toUpper), ctx)

/-- Model of `RuntimeContext::builtin_tolower` (runtime.rs:488-495). -/
def builtin_tolower (ctx : RuntimeContext) (args : List Value) :
    Except Err (Value × RuntimeContext) :=
  let s := match args with
    | [] => ctx.get_field 0
    | a :: _ => a.to_string
  .ok (.String (s.map Char.toLower), ctx)

/-- Model of `RuntimeContext::builtin_sin` (runtime.rs:498-507). -/
def builtin_sin (F : FloatOps) (ctx : RuntimeContext) (args : List Value) :
    Except Err (Value × RuntimeContext) :=
  if args.length ≠ 1 then .error (arityErr (str "sin") args.length "requires exactly 1 argument")
  else .ok (.Number (F.sinF (args.headD .Undefined).to_number), ctx)

/-- Model of `RuntimeContext::builtin_cos` (runtime.rs:510-519). -/
def builtin_cos (F : FloatOps) (ctx : RuntimeContext) (args : List Value) :
    Except Err (Value × RuntimeContext) :=
  if args.length ≠ 1 then .error (arityErr (str "cos") args.length "requires exactly 1 argument")
  else .ok (.Number (F.cosF (args.headD .Undefined).to_number), ctx)

/-- Model of `RuntimeContext::builtin_atan2` (runtime.rs:522-531). -/
def builtin_atan2 (F : FloatOps) (ctx : RuntimeContext) (args : List Value) :
    Except Err (Value × RuntimeContext) :=
  if args.length ≠ 2 then .error (arityErr (str "atan2") args.length "requires exactly 2 arguments")
  else .ok (.Number (F.atan2F (args.headD .Undefined).to_number
    (args.getD 1 .Undefined).to_number), ctx)

/-- Model of `RuntimeContext::builtin_exp` (runtime.rs:534-543). -/
def builtin_exp (F : FloatOps) (ctx : RuntimeContext) (args : List Value) :
    Except Err (Value × RuntimeContext) :=
  if args.length ≠ 1 then .error (arityErr (str "exp") args.length "requires exactly 1 argument")
  else .ok (.Number (F.expF (args.headD .Undefined).to_number), ctx)

/-- Model of `RuntimeContext::builtin_log` (runtime.rs:546-559). -/
def builtin_log (F : FloatOps) (ctx : RuntimeContext) (args : List Value) :
    Except Err (Value × RuntimeContext) :=
  if args.length ≠ 1 then .error (arityErr (str "log") args.length "requires exactly 1 argument")
  else
    let n := (args.headD .Undefined).to_number
    if n ≤ 0 then .error (.Runtime (str "log of non-positive number"))
    else .ok (.Number (F.logF n), ctx)

/-- Model of `RuntimeContext::builtin_sqrt` (runtime.rs:562-575). -/
def builtin_sqrt (F : FloatOps) (ctx : RuntimeContext) (args : List Value) :
    Except Err (Value × RuntimeContext) :=
  if args.length ≠ 1 then .error (arityErr (str "sqrt") args.length "requires exactly 1 argument")
  else
    let n := (args.headD .Undefined).to_number
    if n < 0 then .error (.Runtime (str "sqrt of negative number"))
    else .ok (.Number (F.sqrtF n), ctx)

/-- Model of `RuntimeContext::builtin_int` (runtime.rs:578-587):
`f64::trunc` is exact. -/
def builtin_int (ctx : RuntimeContext) (args : List Value) :
    Except Err (Value × RuntimeContext) :=
  if args.length ≠ 1 then .error (arityErr (str "int") args.length "requires exactly 1 argument")
  else .ok (.Number (mkRat (qTruncZ (args.headD .Undefined).to_number) 1), ctx)

/-- Model of `RuntimeContext::builtin_rand` (runtime.rs:590-600); the
source hashes its own address, so the value is oracular. -/
def builtin_rand (F : FloatOps) (ctx : RuntimeContext) (_args : List Value) :
    Except Err (Value × RuntimeContext) :=
  .ok (.Number F.randF, ctx)

/-- Model of `RuntimeContext::builtin_srand` (runtime.rs:603-606). -/
def builtin_srand (ctx : RuntimeContext) (_args : List Value) :
    Except Err (Value × RuntimeContext) :=
  .ok (.Number 0, ctx)

/-- Model of `RuntimeContext::print_values` (runtime.rs:675-688):
`println!` of `$0` when no expressions, else the values joined by `OFS`
and terminated by `ORS`. -/
def print_values (ctx : RuntimeContext) (values : List Value) : RuntimeContext :=
  match values with
  | [] => { ctx with output := ctx.output ++ [ctx.get_field 0 ++ ['\n']] }
  | _ => { ctx with output :=
      ctx.output ++ [joinSep ctx.ofs (values.map Value.to_string) ++ ctx.ors] }

/-- Model of `RuntimeContext::printf_format` (runtime.rs:690-695). -/
def printf_format (F : FloatOps) (ctx : RuntimeContext) (fmt : Value) (args : List Value) :
    Except Err RuntimeContext := do
  let formatted ← format_string F fmt.to_string args
  .ok { ctx with output := ctx.output ++ [formatted] }

end RuntimeContext

/-! ### Interpreter (interpreter.rs)

The mutually recursive evaluator methods of `Interpreter` are expressed as
one fuel-indexed function `interp` over a `Job` sum (so that the recursion
is structural on the fuel and the kernel can evaluate runs); the named
wrappers below restore the source's method names.  Every statement job
returns `Value.Undefined` as its value component. -/

/-- Parameter binding of `call_user_function` (interpreter.rs:643-646):
the `i`-th parameter receives `args.get(i)` or `Undefined`; the
`enumerate` loop is phrased as recursion over the parameter list. -/
def bind_parameters : List Str → List Value → RuntimeContext → RuntimeContext
  | [], _, ctx => ctx
  | p :: ps, args, ctx =>
    bind_parameters ps args.tail (ctx.set_variable p (args.headD .Undefined))

/-- One pending evaluator activation. -/
inductive Job where
  | expr (e : Expression)
  | lval (e : Expression)
  | asgn (e : Expression) (v : Value)
  | stmt (s : Statement)
  | act (stmts : List Statement)
  | blockGo (stmts : List Statement)
  | whileGo (condition : Expression) (body : Statement)
  | forGo (condition update : Option Expression) (body : Statement)
  | forinGo (varName : Str) (body : Statement) (keys : List Str)
  | callArgs (name : Str) (pending : List Expression) (acc : List Value)
  | call (name : Str) (args : List Value)
  | callUser (f : Function) (args : List Value)
  | printGo (pending : List Expression) (acc : List Value)
  | printfGo (fmtVal : Value) (pending : List Expression) (acc : List Value)

open RuntimeContext in
/-- The evaluator.  Each case is the direct translation of the
corresponding `Interpreter` method (interpreter.rs); every recursive call
spends one unit of fuel. -/
def interp (R : RegexImpl) (F : FloatOps) (fns : List (Str × Function)) :
    ℕ → Job → RuntimeContext → Except Err (Value × RuntimeContext)
  | 0, _, _ => .error .OutOfFuel
  | fuel + 1, job, ctx =>
    match job with
    -- evaluate_expression (interpreter.rs:282-563)
    | .expr (.Literal v) => .ok (v, ctx)
    | .expr (.Identifier name) => .ok (ctx.get_variable name, ctx)
    | .expr (.FieldRef e) => do
      let (iv, c1) ← interp R F fns fuel (.expr e) ctx
      .ok (.String (c1.get_field (qToUsize iv.to_number)), c1)
    | .expr (.ArrayRef array index) => do
      let (av, c1) ← interp R F fns fuel (.expr array) ctx
      let (iv, c2) ← interp R F fns fuel (.expr index) c1
      .ok (av.array_get iv.to_string, c2)
    | .expr (.Add l r) => do
      let (lv, c1) ← interp R F fns fuel (.expr l) ctx
      let (rv, c2) ← interp R F fns fuel (.expr r) c1
      let v ← lv.add rv
      .ok (v, c2)
    | .expr (.Subtract l r) => do
      let (lv, c1) ← interp R F fns fuel (.expr l) ctx
      let (rv, c2) ← interp R F fns fuel (.expr r) c1
      let v ← lv.subtract rv
      .ok (v, c2)
    | .expr (.Multiply l r) => do
      let (lv, c1) ← interp R F fns fuel (.expr l) ctx
      let (rv, c2) ← interp R F fns fuel (.expr r) c1
      let v ← lv.multiply rv
      .ok (v, c2)
    | .expr (.Divide l r) => do
      let (lv, c1) ← interp R F fns fuel (.expr l) ctx
      let (rv, c2) ← interp R F fns fuel (.expr r) c1
      let v ← lv.divide rv
      .ok (v, c2)
    | .expr (.Modulo l r) => do
      let (lv, c1) ← interp R F fns fuel (.expr l) ctx
      let (rv, c2) ← interp R F fns fuel (.expr r) c1
      let v ← lv.modulo rv
      .ok (v, c2)
    | .expr (.Power l r) => do
      let (lv, c1) ← interp R F fns fuel (.expr l) ctx
      let (rv, c2) ← interp R F fns fuel (.expr r) c1
      let v ← lv.power F rv
      .ok (v, c2)
    | .expr (.UnaryMinus e) => do
      let (v, c1) ← interp R F fns fuel (.expr e) ctx
      .ok (.Number (qNeg v.to_number), c1)
    | .expr (.UnaryPlus e) => do
      let (v, c1) ← interp R F fns fuel (.expr e) ctx
      .ok (.Number v.to_number, c1)
    | .expr (.Equal l r) => do
      let (lv, c1) ← interp R F fns fuel (.expr l) ctx
      let (rv, c2) ← interp R F fns fuel (.expr r) c1
      .ok (.Number (if lv.compare rv = .eq then 1 else 0), c2)
    | .expr (.NotEqual l r) => do
      let (lv, c1) ← interp R F fns fuel (.expr l) ctx
      let (rv, c2) ← interp R F fns fuel (.expr r) c1
      .ok (.Number (if lv.compare rv ≠ .eq then 1 else 0), c2)
    | .expr (.Less l r) => do
      let (lv, c1) ← interp R F fns fuel (.expr l) ctx
      let (rv, c2) ← interp R F fns fuel (.expr r) c1
      .ok (.Number (if lv.compare rv = .lt then 1 else 0), c2)
    | .expr (.LessEqual l r) => do
      let (lv, c1) ← interp R F fns fuel (.expr l) ctx
      let (rv, c2) ← interp R F fns fuel (.expr r) c1
      .ok (.Number (if lv.compare rv ≠ .gt then 1 else 0), c2)
    | .expr (.Greater l r) => do
      let (lv, c1) ← interp R F fns fuel (.expr l) ctx
      let (rv, c2) ← interp R F fns fuel (.expr r) c1
      .ok (.Number (if lv.compare rv = .gt then 1 else 0), c2)
    | .expr (.GreaterEqual l r) => do
      let (lv, c1) ← interp R F fns fuel (.expr l) ctx
      let (rv, c2) ← interp R F fns fuel (.expr r) c1
      .ok (.Number (if lv.compare rv ≠ .lt then 1 else 0), c2)
    | .expr (.MatchRe l r) => do
      let (sv, c1) ← interp R F fns fuel (.expr l) ctx
      let (pv, c2) ← interp R F fns fuel (.expr r) c1
      let pattern := pv.to_string
      match get_regex R pattern with
      | .error e => .error e
      | .ok _ => .ok (.Number (if R.isMatch pattern sv.to_string then 1 else 0), c2)
    | .expr (.NotMatchRe l r) => do
      let (sv, c1) ← interp R F fns fuel (.expr l) ctx
      let (pv, c2) ← interp R F fns fuel (.expr r) c1
      let pattern := pv.to_string
      match get_regex R pattern with
      | .error e => .error e
      | .ok _ => .ok (.Number (if R.isMatch pattern sv.to_string then 0 else 1), c2)
    | .expr (.And l r) => do
      let (lv, c1) ← interp R F fns fuel (.expr l) ctx
      if lv.to_bool then do
        let (rv, c2) ← interp R F fns fuel (.expr r) c1
        .ok (.Number (if rv.to_bool then 1 else 0), c2)
      else .ok (.Number 0, c1)
    | .expr (.Or l r) => do
      let (lv, c1) ← interp R F fns fuel (.expr l) ctx
      if lv.to_bool then .ok (.Number 1, c1)
      else do
        let (rv, c2) ← interp R F fns fuel (.expr r) c1
        .ok (.Number (if rv.to_bool then 1 else 0), c2)
    | .expr (.Not e) => do
      let (v, c1) ← interp R F fns fuel (.expr e) ctx
      .ok (.Number (if v.to_bool then 0 else 1), c1)
    | .expr (.Concatenate l r) => do
      let (lv, c1) ← interp R F fns fuel (.expr l) ctx
      let (rv, c2) ← interp R F fns fuel (.expr r) c1
      .ok (lv.concatenate rv, c2)
    | .expr (.In l r) => do
      let (kv, c1) ← interp R F fns fuel (.expr l) ctx
      let (av, c2) ← interp R F fns fuel (.expr r) c1
      .ok (.Number (if av.has_array_key kv.to_string then 1 else 0), c2)
    | .expr (.Assign l r) => do
      let (v, c1) ← interp R F fns fuel (.expr r) ctx
      let (_, c2) ← interp R F fns fuel (.asgn l v) c1
      .ok (v, c2)
    | .expr (.AddAssign l r) => do
      let (lv, c1) ← interp R F fns fuel (.lval l) ctx
      let (rv, c2) ← interp R F fns fuel (.expr r) c1
      let result ← lv.add rv
      let (_, c3) ← interp R F fns fuel (.asgn l result) c2
      .ok (result, c3)
    | .expr (.SubtractAssign l r) => do
      let (lv, c1) ← interp R F fns fuel (.lval l) ctx
      let (rv, c2) ← interp R F fns fuel (.expr r) c1
      let result ← lv.subtract rv
      let (_, c3) ← interp R F fns fuel (.asgn l result) c2
      .ok (result, c3)
    | .expr (.MultiplyAssign l r) => do
      let (lv, c1) ← interp R F fns fuel (.lval l) ctx
      let (rv, c2) ← interp R F fns fuel (.expr r) c1
      let result ← lv.multiply rv
      let (_, c3) ← interp R F fns fuel (.asgn l result) c2
      .ok (result, c3)
    | .expr (.DivideAssign l r) => do
      let (lv, c1) ← interp R F fns fuel (.lval l) ctx
      let (rv, c2) ← interp R F fns fuel (.expr r) c1
      let result ← lv.divide rv
      let (_, c3) ← interp R F fns fuel (.asgn l result) c2
      .ok (result, c3)
    | .expr (.ModuloAssign l r) => do
      let (lv, c1) ← interp R F fns fuel (.lval l) ctx
      let (rv, c2) ← interp R F fns fuel (.expr r) c1
      let result ← lv.modulo rv
      let (_, c3) ← interp R F fns fuel (.asgn l result) c2
      .ok (result, c3)
    | .expr (.PowerAssign l r) => do
      let (lv, c1) ← interp R F fns fuel (.lval l) ctx
      let (rv, c2) ← interp R F fns fuel (.expr r) c1
      let result ← lv.power F rv
      let (_, c3) ← interp R F fns fuel (.asgn l result) c2
      .ok (result, c3)
    | .expr (.PreIncrement e) => do
      let (cur, c1) ← interp R F fns fuel (.lval e) ctx
      let result ← cur.add (.Number 1)
      let (_, c2) ← interp R F fns fuel (.asgn e result) c1
      .ok (result, c2)
    | .expr (.PostIncrement e) => do
      let (cur, c1) ← interp R F fns fuel (.lval e) ctx
      let result ← cur.add (.Number 1)
      let (_, c2) ← interp R F fns fuel (.asgn e result) c1
      .ok (cur, c2)
    | .expr (.PreDecrement e) => do
      let (cur, c1) ← interp R F fns fuel (.lval e) ctx
      let result ← cur.subtract (.Number 1)
      let (_, c2) ← interp R F fns fuel (.asgn e result) c1
      .ok (result, c2)
    | .expr (.PostDecrement e) => do
      let (cur, c1) ← interp R F fns fuel (.lval e) ctx
      let result ← cur.subtract (.Number 1)
      let (_, c2) ← interp R F fns fuel (.asgn e result) c1
      .ok (cur, c2)
    | .expr (.Ternary condition t f) => do
      let (cv, c1) ← interp R F fns fuel (.expr condition) ctx
      if cv.to_bool then interp R F fns fuel (.expr t) c1
      else interp R F fns fuel (.expr f) c1
    | .expr (.FunctionCall name arguments) =>
      interp R F fns fuel (.callArgs name arguments []) ctx
    | .expr (.Getline _) => .ok (.Number 0, ctx)
    | .expr (.Regex pattern) =>
      let record := ctx.get_field 0
      match get_regex R pattern with
      | .error e => .error e
      | .ok _ => .ok (.Number (if R.isMatch pattern record then 1 else 0), ctx)
    -- evaluate_lvalue (interpreter.rs:565-583)
    | .lval (.Identifier name) => .ok (ctx.get_variable name, ctx)
    | .lval (.FieldRef fe) => do
      let (iv, c1) ← interp R F fns fuel (.expr fe) ctx
      .ok (.String (c1.get_field (qToUsize iv.to_number)), c1)
    | .lval (.ArrayRef array index) => do
      let (av, c1) ← interp R F fns fuel (.expr array) ctx
      let (iv, c2) ← interp R F fns fuel (.expr index) c1
      .ok (av.array_get iv.to_string, c2)
    | .lval _ => .error (.Runtime (str "Invalid lvalue"))
    -- assign_to_lvalue (interpreter.rs:585-603)
    | .asgn (.Identifier name) v => .ok (.Undefined, ctx.set_variable name v)
    | .asgn (.FieldRef fe) v => do
      let (iv, c1) ← interp R F fns fuel (.expr fe) ctx
      .ok (.Undefined, c1.set_field (qToUsize iv.to_number) v.to_string)
    | .asgn (.ArrayRef _ _) _ => .ok (.Undefined, ctx)
    | .asgn _ _ => .error (.Runtime (str "Invalid assignment target"))
    -- execute_statement (interpreter.rs:113-280)
    | .stmt (.Expr e) => do
      let (_, c1) ← interp R F fns fuel (.expr e) ctx
      .ok (.Undefined, c1)
    | .stmt (.Block stmts) => interp R F fns fuel (.blockGo stmts) ctx
    | .stmt (.If condition then_stmt else_stmt) => do
      let (cv, c1) ← interp R F fns fuel (.expr condition) ctx
      if cv.to_bool then interp R F fns fuel (.stmt then_stmt) c1
      else
        match else_stmt with
        | some s => interp R F fns fuel (.stmt s) c1
        | Option.none => .ok (.Undefined, c1)
    | .stmt (.While condition body) => interp R F fns fuel (.whileGo condition body) ctx
    | .stmt (.For init condition update body) =>
      match init with
      | some i => do
        let (_, c1) ← interp R F fns fuel (.expr i) ctx
        interp R F fns fuel (.forGo condition update body) c1
      | Option.none => interp R F fns fuel (.forGo condition update body) ctx
    | .stmt (.ForIn varName array body) => do
      let (av, c1) ← interp R F fns fuel (.expr array) ctx
      match av with
      | .Array _ => interp R F fns fuel (.forinGo varName body av.array_keys) c1
      | _ => .ok (.Undefined, c1)
    | .stmt .Break => .ok (.Undefined, ctx.set_control_flow .Break)
    | .stmt .Continue => .ok (.Undefined, ctx.set_control_flow .Continue)
    | .stmt .Next => .ok (.Undefined, ctx.set_control_flow .Next)
    | .stmt (.Exit e) =>
      match e with
      | some ex => do
        let (v, c1) ← interp R F fns fuel (.expr ex) ctx
        .ok (.Undefined, c1.set_exit_code (qToI32 v.to_number))
      | Option.none => .ok (.Undefined, ctx.set_exit_code 0)
    | .stmt (.Return e) =>
      match e with
      | some ex => do
        let (v, c1) ← interp R F fns fuel (.expr ex) ctx
        .ok (.Undefined, c1.set_control_flow (.Return v))
      | Option.none => .ok (.Undefined, ctx.set_control_flow (.Return .Undefined))
    | .stmt (.Delete e) =>
      match e with
      | .Identifier name => .ok (.Undefined, ctx.set_variable name .Undefined)
      | .ArrayRef array index => do
        let (_, c1) ← interp R F fns fuel (.expr array) ctx
        let (_, c2) ← interp R F fns fuel (.expr index) c1
        .ok (.Undefined, c2)
      | _ => .error (.Runtime (str "Invalid delete target"))
    | .stmt (.Print expressions _) => interp R F fns fuel (.printGo expressions []) ctx
    | .stmt (.Printf fmt arguments _) => do
      let (fv, c1) ← interp R F fns fuel (.expr fmt) ctx
      interp R F fns fuel (.printfGo fv arguments []) c1
    -- execute_action (interpreter.rs:100-111)
    | .act [] => .ok (.Undefined, ctx)
    | .act (s :: rest) => do
      let (_, c1) ← interp R F fns fuel (.stmt s) ctx
      match c1.control_flow with
      | .None => interp R F fns fuel (.act rest) c1
      | _ => .ok (.Undefined, c1)
    -- Statement::Block body (interpreter.rs:118-125)
    | .blockGo [] => .ok (.Undefined, ctx)
    | .blockGo (s :: rest) => do
      let (_, c1) ← interp R F fns fuel (.stmt s) ctx
      if c1.has_control_flow then .ok (.Undefined, c1)
      else interp R F fns fuel (.blockGo rest) c1
    -- Statement::While loop (interpreter.rs:134-156)
    | .whileGo condition body =>
      if ctx.has_control_flow then .ok (.Undefined, ctx)
      else do
        let (cv, c1) ← interp R F fns fuel (.expr condition) ctx
        if cv.to_bool then do
          let (_, c2) ← interp R F fns fuel (.stmt body) c1
          match c2.control_flow with
          | .Break => .ok (.Undefined, c2.clear_control_flow)
          | .Continue => interp R F fns fuel (.whileGo condition body) c2.clear_control_flow
          | .None => interp R F fns fuel (.whileGo condition body) c2
          | _ => .ok (.Undefined, c2)
        else .ok (.Undefined, c1)
    -- Statement::For loop (interpreter.rs:157-192)
    | .forGo condition update body =>
      if ctx.has_control_flow then .ok (.Undefined, ctx)
      else do
        let (go, c1) ←
          match condition with
          | some c => do
            let (cv, c1) ← interp R F fns fuel (.expr c) ctx
            Except.ok (cv.to_bool, c1)
          | Option.none => Except.ok (true, ctx)
        if go then do
          let (_, c2) ← interp R F fns fuel (.stmt body) c1
          match c2.control_flow with
          | .Break => .ok (.Undefined, c2.clear_control_flow)
          | .Continue =>
            let c3 := c2.clear_control_flow
            match update with
            | some u => do
              let (_, c4) ← interp R F fns fuel (.expr u) c3
              interp R F fns fuel (.forGo condition update body) c4
            | Option.none => interp R F fns fuel (.forGo condition update body) c3
          | .None =>
            match update with
            | some u => do
              let (_, c4) ← interp R F fns fuel (.expr u) c2
              interp R F fns fuel (.forGo condition update body) c4
            | Option.none => interp R F fns fuel (.forGo condition update body) c2
          | _ => .ok (.Undefined, c2)
        else .ok (.Undefined, c1)
    -- Statement::ForIn loop (interpreter.rs:193-219)
    | .forinGo _ _ [] => .ok (.Undefined, ctx)
    | .forinGo varName body (k :: ks) =>
      if ctx.has_control_flow then .ok (.Undefined, ctx)
      else do
        let c1 := ctx.set_variable varName (.String k)
        let (_, c2) ← interp R F fns fuel (.stmt body) c1
        match c2.control_flow with
        | .Break => .ok (.Undefined, c2.clear_control_flow)
        | .Continue => interp R F fns fuel (.forinGo varName body ks) c2.clear_control_flow
        | .None => interp R F fns fuel (.forinGo varName body ks) c2
        | _ => .ok (.Undefined, c2)
    -- FunctionCall argument evaluation (interpreter.rs:541-548)
    | .callArgs name [] acc => interp R F fns fuel (.call name acc.reverse) ctx
    | .callArgs name (a :: rest) acc => do
      let (v, c1) ← interp R F fns fuel (.expr a) ctx
      interp R F fns fuel (.callArgs name rest (v :: acc)) c1
    -- call_function dispatch (interpreter.rs:605-636)
    | .call name args =>
      if name = str "length" then ctx.builtin_length args
      else if name = str "substr" then ctx.builtin_substr args
      else if name = str "index" then ctx.builtin_index args
      else if name = str "split" then builtin_split R ctx args
      else if name = str "gsub" then builtin_gsub R ctx args
      else if name = str "sub" then builtin_sub R ctx args
      else if name = str "match" then builtin_match R ctx args
      else if name = str "sprintf" then builtin_sprintf F ctx args
      else if name = str "toupper" then ctx.builtin_toupper args
      else if name = str "tolower" then ctx.builtin_tolower args
      else if name = str "sin" then builtin_sin F ctx args
      else if name = str "cos" then builtin_cos F ctx args
      else if name = str "atan2" then builtin_atan2 F ctx args
      else if name = str "exp" then builtin_exp F ctx args
      else if name = str "log" then builtin_log F ctx args
      else if name = str "sqrt" then builtin_sqrt F ctx args
      else if name = str "int" then ctx.builtin_int args
      else if name = str "rand" then builtin_rand F ctx args
      else if name = str "srand" then ctx.builtin_srand args
      else
        match fns.find? (fun p => p.1 = name) with
        | some p => interp R F fns fuel (.callUser p.2 args) ctx
        | Option.none => .error (.UndefinedFunction name)
    -- call_user_function (interpreter.rs:638-662)
    | .callUser f args => do
      let c1 := ctx.push_call_frame f.name
      let c2 := bind_parameters f.parameters args c1
      let (_, c3) ← interp R F fns fuel (.act f.body.statements) c2
      let ret :=
        match c3.control_flow with
        | .Return v => v
        | _ => Value.Undefined
      .ok (ret, c3.pop_call_frame.clear_control_flow)
    -- Print argument evaluation (interpreter.rs:259-267)
    | .printGo [] acc => .ok (.Undefined, ctx.print_values acc.reverse)
    | .printGo (e :: rest) acc => do
      let (v, c1) ← interp R F fns fuel (.expr e) ctx
      interp R F fns fuel (.printGo rest (v :: acc)) c1
    -- Printf argument evaluation (interpreter.rs:268-276)
    | .printfGo fv [] acc => do
      let c1 ← printf_format F ctx fv acc.reverse
      .ok (.Undefined, c1)
    | .printfGo fv (e :: rest) acc => do
      let (v, c1) ← interp R F fns fuel (.expr e) ctx
      interp R F fns fuel (.printfGo fv rest (v :: acc)) c1

/-- `Interpreter::evaluate_expression` as a named entry point. -/
def evaluate_expression (R : RegexImpl) (F : FloatOps) (fns : List (Str × Function))
    (fuel : ℕ) (e : Expression) (ctx : RuntimeContext) :
    Except Err (Value × RuntimeContext) :=
  interp R F fns fuel (.expr e) ctx

/-- `Interpreter::execute_statement` as a named entry point. -/
def execute_statement (R : RegexImpl) (F : FloatOps) (fns : List (Str × Function))
    (fuel : ℕ) (s : Statement) (ctx : RuntimeContext) : Except Err RuntimeContext :=
  (interp R F fns fuel (.stmt s) ctx).map Prod.snd

/-- `Interpreter::execute_action` as a named entry point. -/
def execute_action (R : RegexImpl) (F : FloatOps) (fns : List (Str × Function))
    (fuel : ℕ) (a : Action) (ctx : RuntimeContext) : Except Err RuntimeContext :=
  (interp R F fns fuel (.act a.statements) ctx).map Prod.snd

/-- `Interpreter::call_user_function` as a named entry point. -/
def call_user_function (R : RegexImpl) (F : FloatOps) (fns : List (Str × Function))
    (fuel : ℕ) (f : Function) (args : List Value) (ctx : RuntimeContext) :
    Except Err (Value × RuntimeContext) :=
  interp R F fns fuel (.callUser f args) ctx

/-- Model of `Interpreter::evaluate_pattern` (interpreter.rs:83-98).  A
`Range` pattern evaluates both sub-patterns and ORs the results — the
source's admittedly simplified placeholder, with no state tracking. -/
def evaluate_pattern (R : RegexImpl) (F : FloatOps) (fns : List (Str × Function))
    (fuel : ℕ) : Pattern → RuntimeContext → Except Err (Bool × RuntimeContext)
  | .Begin, ctx => .ok (false, ctx)
  | .End, ctx => .ok (false, ctx)
  | .Expr e, ctx => do
    let (v, c1) ← evaluate_expression R F fns fuel e ctx
    .ok (v.to_bool, c1)
  | .Range s e, ctx => do
    let (sm, c1) ← evaluate_pattern R F fns fuel s ctx
    let (em, c2) ← evaluate_pattern R F fns fuel e c1
    .ok (sm || em, c2)

/-- The per-rule pattern test of `execute_main_rules` (interpreter.rs:49-53):
no pattern means always match. -/
def evalRulePattern (R : RegexImpl) (F : FloatOps) (fns : List (Str × Function))
    (fuel : ℕ) (rule : Rule) (ctx : RuntimeContext) :
    Except Err (Bool × RuntimeContext) :=
  match rule.pattern with
  | some p => evaluate_pattern R F fns fuel p ctx
  | Option.none => .ok (true, ctx)

/-- How the main-rule loop of `execute_main_rules` ended: fell through the
whole rule list, broke out of it on a `Next` signal, or returned early on
an `Exit` signal. -/
inductive RuleScan where
  | fell (any_matched : Bool) (ctx : RuntimeContext)
  | stoppedNext (ctx : RuntimeContext)
  | stoppedExit (ctx : RuntimeContext)

/-- The rule loop of `execute_main_rules` (interpreter.rs:48-68), with the
`break`/`return` exits reified as `RuleScan` outcomes.  `any_matched` is
set before the action runs, so a `Next` break leaves it `true`. -/
def run_main_rules (R : RegexImpl) (F : FloatOps) (fns : List (Str × Function))
    (fuel : ℕ) : List Rule → Bool → RuntimeContext → Except Err RuleScan
  | [], any_matched, ctx => .ok (.fell any_matched ctx)
  | rule :: rest, any_matched, ctx => do
    let (matched, c1) ← evalRulePattern R F fns fuel rule ctx
    if matched then do
      let c2 ← execute_action R F fns fuel rule.action c1
      match c2.control_flow with
      | .Next => .ok (.stoppedNext c2)
      | .Exit _ => .ok (.stoppedExit c2)
      | _ => run_main_rules R F fns fuel rest true c2
    else run_main_rules R F fns fuel rest any_matched c1

/-- The part of `Interpreter::execute_main_rules` after the short-circuit
guard (interpreter.rs:45-70): install the record, run the main rules in
declaration order, and interpret the loop's outcome — a `Next` break
clears the signal and reports `true`, an `Exit` returns `Ok(false)` with
the signal left in place. -/
def execute_main_rules_go (R : RegexImpl) (F : FloatOps) (fns : List (Str × Function))
    (fuel : ℕ) (p : Program) (record : Str) (ctx : RuntimeContext) :
    Except Err (Bool × RuntimeContext) :=
  let ctx := ctx.set_current_record R record
  match run_main_rules R F fns fuel p.get_main_rules false ctx with
  | .error e => .error e
  | .ok (.fell any_matched c) => .ok (any_matched, c)
  | .ok (.stoppedNext c) => .ok (true, c.clear_control_flow)
  | .ok (.stoppedExit c) => .ok (false, c)

/-- Model of `Interpreter::execute_main_rules` (interpreter.rs:38-71): a
pending `Exit` short-circuits the whole call to `Ok(false)` before any
record is set. -/
def execute_main_rules (R : RegexImpl) (F : FloatOps) (fns : List (Str × Function))
    (fuel : ℕ) (p : Program) (record : Str) (ctx : RuntimeContext) :
    Except Err (Bool × RuntimeContext) :=
  match ctx.control_flow with
  | .Exit _ => .ok (false, ctx)
  | _ => execute_main_rules_go R F fns fuel p record ctx

/-- The BEGIN-rule loop of `Interpreter::execute_program`
(interpreter.rs:25-33): an `Exit` stops everything, any other signal is
cleared between BEGIN rules. -/
def run_begin_rules (R : RegexImpl) (F : FloatOps) (fns : List (Str × Function))
    (fuel : ℕ) : List Rule → RuntimeContext → Except Err RuntimeContext
  | [], ctx => .ok ctx
  | rule :: rest, ctx => do
    let c1 ← execute_action R F fns fuel rule.action ctx
    if c1.has_control_flow then
      match c1.control_flow with
      | .Exit _ => .ok c1
      | _ => run_begin_rules R F fns fuel rest c1.clear_control_flow
    else run_begin_rules R F fns fuel rest c1

/-- Model of `Interpreter::execute_program` (interpreter.rs:20-36): loads
the program's functions and runs the BEGIN rules. -/
def execute_program (R : RegexImpl) (F : FloatOps) (fuel : ℕ) (p : Program)
    (ctx : RuntimeContext) : Except Err RuntimeContext :=
  run_begin_rules R F p.functions fuel p.get_begin_rules ctx

/-- Model of `Interpreter::execute_end_rules` (interpreter.rs:73-81): runs
END rules, stopping after one that leaves an `Exit` signal. -/
def run_end_rules (R : RegexImpl) (F : FloatOps) (fns : List (Str × Function))
    (fuel : ℕ) : List Rule → RuntimeContext → Except Err RuntimeContext
  | [], ctx => .ok ctx
  | rule :: rest, ctx => do
    let c1 ← execute_action R F fns fuel rule.action ctx
    match c1.control_flow with
    | .Exit _ => .ok c1
    | _ => run_end_rules R F fns fuel rest c1

/-- `Interpreter::execute_end_rules` over a program. -/
def execute_end_rules (R : RegexImpl) (F : FloatOps) (fns : List (Str × Function))
    (fuel : ℕ) (p : Program) (ctx : RuntimeContext) : Except Err RuntimeContext :=
  run_end_rules R F fns fuel p.get_end_rules ctx

/-! ## Claim C1: range-pattern semantics -/

/-- Modelled from the spec: the three-state range-pattern machine of
§4.5 — *inactive*: test the start pattern, and on a match run the action
for this record and become *active* (unless the end pattern also matches
this record); *active*: the action always runs, and a match of the end
pattern deactivates after this record.  Given per-record start/end tests,
returns for each record whether the action runs. -/
def rangeActive (s e : Str → Bool) : Bool → List Str → List Bool
  | _, [] => []
  | false, r :: rs =>
    if s r then true :: rangeActive s e (!(e r)) rs
    else false :: rangeActive s e false rs
  | true, r :: rs => true :: rangeActive s e (!(e r)) rs

/-- A one-rule program `($0 == "a"), ($0 == "b") { n = n + 1 }` used to
exercise the source's range-pattern evaluation. -/
def rangeDemoProgram : Program :=
  { rules := [
      { pattern := some (.Range
          (.Expr (.Equal (.FieldRef (.Literal (.Number 0))) (.Literal (.String (str "a")))))
          (.Expr (.Equal (.FieldRef (.Literal (.Number 0))) (.Literal (.String (str "b"))))))
        action := { statements := [
          .Expr (.Assign (.Identifier (str "n"))
            (.Add (.Identifier (str "n")) (.Literal (.Number 1)))) ] } } ]
    functions := [] }

/-- Feed one record of the demo program through `execute_main_rules`. -/
def rangeDemoStep (r : Str) (c : RuntimeContext) : RuntimeContext :=
  match execute_main_rules RegexImpl.none FloatOps.zero [] 20 rangeDemoProgram r c with
  | .ok (_, c2) => c2
  | .error _ => c

/-- C1: the claim says a range pattern's action runs exactly for the
inclusive window from a start-pattern match through the next end-pattern
match.  On the records `"a"`, `"x"`, `"b"` with range `($0=="a"),($0=="b")`
that window is all three records (the spec's three-state machine below
reports `[true, true, true]`), but the source's `evaluate_pattern` ORs the
start and end tests per record, so the action does not run for the middle
record: the counter `n` is `1` after `"a"`, still `1` after `"x"`, and `2`
after `"b"`.  The code contradicts the spec's stated (to-be-implemented)
semantics — a code bug, acknowledged by the source comment "simplified
implementation". -/
theorem range_pattern_or_shortcut_divergence :
    (let c1 := rangeDemoStep (str "a") RuntimeContext.new
     let c2 := rangeDemoStep (str "x") c1
     let c3 := rangeDemoStep (str "b") c2
     ((c1.get_variable (str "n")).to_number,
      (c2.get_variable (str "n")).to_number,
      (c3.get_variable (str "n")).to_number) = (1, 1, 2)) ∧
    rangeActive (fun r => r = str "a") (fun r => r = str "b") false
      [str "a", str "x", str "b"] = [true, true, true] := by
  exact ⟨by decide, by decide⟩

/-! ## Claim C5: numeric coercion of strings -/

/-- The claim's specification of `to_number` on a string `s`: the numeric
value of the longest prefix of `s` that is a valid number — an optional
sign, digits, at most one decimal point, and an optional (complete)
exponent — or `0` when no valid numeric prefix exists.  `parseF64?`
decides exactly that grammar and supplies the exact value. -/
def longestNumPrefixVal (s : Str) : ℚ :=
  match ((List.range (s.length + 1)).filter fun n => (parseF64? (s.take n)).isSome).getLast? with
  | some n => (parseF64? (s.take n)).getD 0
  | Option.none => 0

/-- C5: the claim says `Value::String(s).to_number()` returns the value of
the longest valid numeric prefix of `s`, `0` only when none exists, and in
particular `"3abc"` → `3` (which does hold).  But on `"3e"` the scanner
greedily consumes the bare exponent marker, the whole scanned prefix
`"3e"` fails to parse, and `unwrap_or(0.0)` yields `0` — although the
longest valid numeric prefix is `"3"`, with value `3` (what awk, the
spec's stated intent, produces).  The code's own comment ("Find the
longest prefix that could be a number", "AWK numeric conversion") marks
this as a slip. -/
theorem to_number_dangling_exponent_divergence :
    Value.to_number (.String (str "3e")) = 0 ∧
    longestNumPrefixVal (str "3e") = 3 ∧
    Value.to_number (.String (str "3abc")) = 3 ∧
    longestNumPrefixVal (str "3abc") = 3 := by
  exact ⟨by decide, by decide, by decide, by decide⟩

/-! ## Claim C6: comparison heuristic -/

/-- C6: `Value::compare` compares numerically (via `to_number`, i.e.
`compare_numeric`) exactly when both operands are numbers or
numeric-looking strings (`looks_like_number`: a string that fully parses
as a number — decimal per the `f64` grammar, or `0x`/`0X`-prefixed
hexadecimal in the `i64` range), and otherwise compares the string forms
lexicographically (`compare_string`). -/
theorem compare_numeric_string_heuristic (a b : Value) :
    Value.compare a b =
      (if a.looks_like_number && b.looks_like_number then a.compare_numeric b
       else a.compare_string b) := by
  cases a <;> cases b <;>
    simp [Value.compare, Value.compare_string, Value.to_string, Value.looks_like_number]

/-! ## Claim C7: arithmetic totality and division by zero -/

/-- C7: `add`, `subtract`, `multiply`, `power` coerce both operands with
`to_number` and always succeed; `divide` and `modulo` fail with
`DivisionByZero` exactly when the divisor coerces to `0`, and otherwise
succeed with the exact quotient (`qDiv`) and truncated remainder
(`fRem`).  The coercions `to_string`, `to_number`, `to_bool` are total
functions into `Str`/`ℚ`/`Bool` by construction, so no other coercion can
fail. -/
theorem value_arithmetic_spec (F : FloatOps) (a b : Value) :
    Value.add a b = .ok (.Number (qAdd a.to_number b.to_number)) ∧
    Value.subtract a b = .ok (.Number (qSub a.to_number b.to_number)) ∧
    Value.multiply a b = .ok (.Number (qMul a.to_number b.to_number)) ∧
    Value.power F a b = .ok (.Number (F.powf a.to_number b.to_number)) ∧
    (b.to_number = 0 →
      Value.divide a b = .error .DivisionByZero ∧
      Value.modulo a b = .error .DivisionByZero) ∧
    (b.to_number ≠ 0 →
      Value.divide a b = .ok (.Number (qDiv a.to_number b.to_number)) ∧
      Value.modulo a b = .ok (.Number (Value.fRem a.to_number b.to_number))) := by
  refine ⟨rfl, rfl, rfl, rfl, fun h => ?_, fun h => ?_⟩
  · constructor <;> simp [Value.divide, Value.modulo, h]
  · constructor <;> simp [Value.divide, Value.modulo, h]

/-- Witness for C7 at concrete inputs: `10 / 3` succeeds with the
quotient, `10 / 0` and `10 % 0` fail with `DivisionByZero`. -/
theorem value_arithmetic_spec_witness :
    (Value.divide (.Number 10) (.Number 3) = .ok (.Number (qDiv 10 3)) ∧
     Value.modulo (.Number 10) (.Number 3) = .ok (.Number (Value.fRem 10 3))) ∧
    (Value.divide (.Number 10) (.Number 0) = .error .DivisionByZero ∧
     Value.modulo (.Number 10) (.Number 0) = .error .DivisionByZero) := by
  exact ⟨(value_arithmetic_spec FloatOps.zero (.Number 10) (.Number 3)).2.2.2.2.2
      (by decide),
    (value_arithmetic_spec FloatOps.zero (.Number 10) (.Number 0)).2.2.2.2.1
      (by decide)⟩

/-! ## Claim C9: variable-write rules -/

/-- The names `set_variable` treats specially: the separator variables it
redirects and the read-only built-ins it ignores. -/
def specialVarNames : List Str :=
  [str "FS", str "OFS", str "RS", str "ORS", str "SUBSEP",
   str "NR", str "NF", str "FILENAME", str "RSTART", str "RLENGTH"]

/-- C9: writing `NR`, `NF`, `FILENAME`, `RSTART` or `RLENGTH` is silently
ignored, returning the context unchanged; writing `FS`/`OFS`/`RS`/`ORS`/
`SUBSEP` updates the corresponding internal field to the value's string
form and re-synchronizes the built-in snapshot (`update_built_in_vars`);
any other name is written into the top call frame's map when the call
stack is non-empty, else into the global map, leaving every other
component of the context unchanged. -/
theorem set_variable_spec (ctx : RuntimeContext) (v : Value) :
    (∀ name, name ∈ [str "NR", str "NF", str "FILENAME", str "RSTART", str "RLENGTH"] →
      ctx.set_variable name v = ctx) ∧
    ctx.set_variable (str "FS") v =
      RuntimeContext.update_built_in_vars { ctx with fs := v.to_string } ∧
    ctx.set_variable (str "OFS") v =
      RuntimeContext.update_built_in_vars { ctx with ofs := v.to_string } ∧
    ctx.set_variable (str "RS") v =
      RuntimeContext.update_built_in_vars { ctx with rs := v.to_string } ∧
    ctx.set_variable (str "ORS") v =
      RuntimeContext.update_built_in_vars { ctx with ors := v.to_string } ∧
    ctx.set_variable (str "SUBSEP") v =
      RuntimeContext.update_built_in_vars { ctx with subsep := v.to_string } ∧
    (∀ name, name ∉ specialVarNames →
      (match ctx.call_stack with
       | frame :: rest =>
         ctx.set_variable name v =
           { ctx with call_stack :=
               { frame with vars := Value.insertA frame.vars name v } :: rest }
       | [] =>
         ctx.set_variable name v = { ctx with vars := Value.insertA ctx.vars name v })) := by
  refine ⟨fun name h => ?_, rfl, rfl, rfl, rfl, rfl, fun name h => ?_⟩
  · simp only [List.mem_cons, List.not_mem_nil, or_false] at h
    rcases h with rfl | rfl | rfl | rfl | rfl <;> rfl
  · simp only [specialVarNames, List.mem_cons, List.not_mem_nil, or_false, not_or] at h
    obtain ⟨h1, h2, h3, h4, h5, h6, h7, h8, h9, h10⟩ := h
    cases hcs : ctx.call_stack with
    | nil =>
      simp only [RuntimeContext.set_variable, if_neg h1, if_neg h2, if_neg h3, if_neg h4,
        if_neg h5, hcs]
      rw [if_neg]
      simp [h6, h7, h8, h9, h10]
    | cons frame rest =>
      simp only [RuntimeContext.set_variable, if_neg h1, if_neg h2, if_neg h3, if_neg h4,
        if_neg h5, hcs]
      rw [if_neg]
      simp [h6, h7, h8, h9, h10]

/-- Witness for C9 at concrete inputs: writing `NR` on a fresh context is
a no-op, and writing `x` on a fresh (frameless) context goes to the
globals. -/
theorem set_variable_spec_witness :
    RuntimeContext.new.set_variable (str "NR") (.Number 7) = RuntimeContext.new ∧
    RuntimeContext.new.set_variable (str "x") (.Number 7) =
      { RuntimeContext.new with
          vars := Value.insertA RuntimeContext.new.vars (str "x") (.Number 7) } := by
  exact ⟨(set_variable_spec RuntimeContext.new (.Number 7)).1 (str "NR") (by decide),
    (set_variable_spec RuntimeContext.new (.Number 7)).2.2.2.2.2.2 (str "x") (by decide)⟩

/-! ## Claims C3/C4: user-function call semantics

Supporting lemmas about variable lookup and parameter binding. -/

theorem lookupA_insertA_self (m : List (Str × Value)) (k : Str) (v : Value) :
    Value.lookupA (Value.insertA m k v) k = some v := by
  induction m with
  | nil => simp [Value.insertA, Value.lookupA]
  | cons p rest ih =>
    obtain ⟨k1, v1⟩ := p
    by_cases h : k1 = k <;> simp [Value.insertA, Value.lookupA, h, ih]

theorem lookupA_insertA_other (m : List (Str × Value)) (k k' : Str) (v : Value)
    (h : k' ≠ k) : Value.lookupA (Value.insertA m k v) k' = Value.lookupA m k' := by
  induction m with
  | nil =>
    simp only [Value.insertA, Value.lookupA]
    rw [if_neg (Ne.symm h)]
  | cons p rest ih =>
    obtain ⟨k1, v1⟩ := p
    simp only [Value.insertA]
    by_cases h1 : k1 = k
    · subst h1
      rw [if_pos rfl]
      simp only [Value.lookupA]
      rw [if_neg (Ne.symm h), if_neg (Ne.symm h)]
    · rw [if_neg h1]
      simp only [Value.lookupA]
      by_cases h2 : k1 = k'
      · rw [if_pos h2, if_pos h2]
      · rw [if_neg h2, if_neg h2, ih]

/-- The built-in map contains only the ten built-in variable names (true
of every context the interpreter constructs, and preserved below). -/
def builtinKeysOnly (ctx : RuntimeContext) : Bool :=
  ctx.built_in_vars.all fun p => decide (p.1 ∈ specialVarNames)

theorem lookupA_none_of_keysOnly (m : List (Str × Value))
    (h : m.all (fun p => decide (p.1 ∈ specialVarNames)) = true)
    (name : Str) (hn : name ∉ specialVarNames) : Value.lookupA m name = Option.none := by
  induction m with
  | nil => rfl
  | cons p rest ih =>
    simp only [List.all_cons, Bool.and_eq_true, decide_eq_true_eq] at h
    have hne : p.1 ≠ name := fun hh => hn (hh ▸ h.1)
    obtain ⟨k1, v1⟩ := p
    simpa [Value.lookupA, hne] using ih h.2

/-- `set_variable` on a non-special name: the exact effect (the last arm
of the source's match). -/
theorem set_variable_nonspecial (ctx : RuntimeContext) (name : Str) (v : Value)
    (h : name ∉ specialVarNames) :
    ctx.set_variable name v =
      (match ctx.call_stack with
       | frame :: rest =>
         { ctx with call_stack :=
             { frame with vars := Value.insertA frame.vars name v } :: rest }
       | [] => { ctx with vars := Value.insertA ctx.vars name v }) := by
  simp only [specialVarNames, List.mem_cons, List.not_mem_nil, or_false, not_or] at h
  obtain ⟨h1, h2, h3, h4, h5, h6, h7, h8, h9, h10⟩ := h
  simp only [RuntimeContext.set_variable, if_neg h1, if_neg h2, if_neg h3, if_neg h4, if_neg h5]
  rw [if_neg]
  simp [h6, h7, h8, h9, h10]

theorem set_variable_nonspecial_built_ins (ctx : RuntimeContext) (name : Str) (v : Value)
    (h : name ∉ specialVarNames) :
    (ctx.set_variable name v).built_in_vars = ctx.built_in_vars := by
  rw [set_variable_nonspecial ctx name v h]
  cases ctx.call_stack <;> rfl

theorem set_variable_nonspecial_keysOnly (ctx : RuntimeContext) (name : Str) (v : Value)
    (h : name ∉ specialVarNames) (hk : builtinKeysOnly ctx = true) :
    builtinKeysOnly (ctx.set_variable name v) = true := by
  rw [builtinKeysOnly, set_variable_nonspecial_built_ins ctx name v h]
  exact hk

/-- No branch of `set_variable` changes the names of the call-stack
frames (a non-special write replaces only the top frame's map). -/
theorem set_variable_stack_names (ctx : RuntimeContext) (name : Str) (v : Value) :
    (ctx.set_variable name v).call_stack.map CallFrame.function_name =
      ctx.call_stack.map CallFrame.function_name := by
  by_cases h : name ∈ specialVarNames
  · simp only [specialVarNames, List.mem_cons, List.not_mem_nil, or_false] at h
    rcases h with rfl | rfl | rfl | rfl | rfl | rfl | rfl | rfl | rfl | rfl <;> rfl
  · rw [set_variable_nonspecial ctx name v h]
    cases ctx.call_stack <;> rfl

theorem get_variable_set_self (ctx : RuntimeContext) (name : Str) (v : Value)
    (hns : name ∉ specialVarNames) (hbk : builtinKeysOnly ctx = true)
    (frame : CallFrame) (rest : List CallFrame) (hcs : ctx.call_stack = frame :: rest) :
    (ctx.set_variable name v).get_variable name = v := by
  rw [set_variable_nonspecial ctx name v hns, hcs]
  simp only [RuntimeContext.get_variable]
  rw [lookupA_none_of_keysOnly _ hbk name hns]
  simp [lookupA_insertA_self]

theorem get_variable_set_other (ctx : RuntimeContext) (name q : Str) (v : Value)
    (hns : name ∉ specialVarNames) (hne : q ≠ name) :
    (ctx.set_variable name v).get_variable q = ctx.get_variable q := by
  rw [set_variable_nonspecial ctx name v hns]
  cases hcs : ctx.call_stack with
  | nil =>
    simp only [RuntimeContext.get_variable, hcs]
    rw [lookupA_insertA_other _ _ _ _ hne]
  | cons frame rest =>
    simp only [RuntimeContext.get_variable, hcs]
    rw [lookupA_insertA_other _ _ _ _ hne]

theorem bind_parameters_stack_names (params : List Str) (args : List Value)
    (ctx : RuntimeContext) :
    (bind_parameters params args ctx).call_stack.map CallFrame.function_name =
      ctx.call_stack.map CallFrame.function_name := by
  induction params generalizing args ctx with
  | nil => rfl
  | cons p ps ih =>
    rw [bind_parameters, ih, set_variable_stack_names]

theorem bind_parameters_built_ins (params : List Str) (args : List Value)
    (ctx : RuntimeContext) (h : ∀ p ∈ params, p ∉ specialVarNames) :
    (bind_parameters params args ctx).built_in_vars = ctx.built_in_vars := by
  induction params generalizing args ctx with
  | nil => rfl
  | cons p ps ih =>
    rw [bind_parameters, ih _ _ (fun q hq => h q (List.mem_cons_of_mem _ hq)),
      set_variable_nonspecial_built_ins _ _ _ (h p (List.mem_cons_self _ _))]

theorem bind_parameters_preserves (params : List Str) (args : List Value)
    (ctx : RuntimeContext) (q : Str)
    (hns : ∀ p ∈ params, p ∉ specialVarNames) (hq : q ∉ params) :
    (bind_parameters params args ctx).get_variable q = ctx.get_variable q := by
  induction params generalizing args ctx with
  | nil => rfl
  | cons p ps ih =>
    rw [bind_parameters,
      ih _ _ (fun r hr => hns r (List.mem_cons_of_mem _ hr))
        (fun hh => hq (List.mem_cons_of_mem _ hh)),
      get_variable_set_other _ _ _ _ (hns p (List.mem_cons_self _ _))
        (fun hh => hq (hh ▸ List.mem_cons_self _ _))]

theorem bind_parameters_get (params : List Str) (args : List Value)
    (ctx : RuntimeContext) (i : ℕ)
    (hnd : params.Nodup) (hns : ∀ p ∈ params, p ∉ specialVarNames)
    (hbk : builtinKeysOnly ctx = true) (frame : CallFrame) (rest : List CallFrame)
    (hcs : ctx.call_stack = frame :: rest) (hi : i < params.length) :
    (bind_parameters params args ctx).get_variable (params.getD i []) =
      args.getD i .Undefined := by
  induction params generalizing args ctx i frame rest with
  | nil => exact absurd hi (by simp)
  | cons p ps ih =>
    rw [bind_parameters]
    rcases i with _ | j
    · rw [List.getD_cons_zero, List.getD_eq_getElem?_getD]
      have hnot : p ∉ ps := (List.nodup_cons.mp hnd).1
      rw [bind_parameters_preserves ps args.tail _ p
          (fun r hr => hns r (List.mem_cons_of_mem _ hr)) hnot]
      rcases args with _ | ⟨a, as⟩
      · simpa using get_variable_set_self ctx p .Undefined
          (hns p (List.mem_cons_self _ _)) hbk frame rest hcs
      · simpa using get_variable_set_self ctx p a
          (hns p (List.mem_cons_self _ _)) hbk frame rest hcs
    · have hsp := hns p (List.mem_cons_self _ _)
      have hbk2 := set_variable_nonspecial_keysOnly ctx p (args.headD .Undefined) hsp hbk
      have hstack := set_variable_stack_names ctx p (args.headD .Undefined)
      rw [hcs] at hstack
      rcases hcs2 : (ctx.set_variable p (args.headD .Undefined)).call_stack with _ | ⟨fr2, rest2⟩
      · rw [hcs2] at hstack
        exact absurd hstack (by simp)
      · have := ih args.tail _ j (List.nodup_cons.mp hnd).2
          (fun r hr => hns r (List.mem_cons_of_mem _ hr)) hbk2 fr2 rest2 hcs2
          (by simpa using hi)
        rw [List.getD_cons_succ]
        rw [this]
        rcases args with _ | ⟨a, as⟩ <;> simp

/-- The value-extraction step of `call_user_function`
(interpreter.rs:652-655). -/
def returnValueOf (ctx : RuntimeContext) : Value :=
  match ctx.control_flow with
  | .Return v => v
  | _ => .Undefined

/-- Unfolding of one successful `call_user_function` step: push, bind,
run the body, extract the result, pop, clear. -/
theorem call_user_function_step (R : RegexImpl) (F : FloatOps)
    (fns : List (Str × Function)) (fuel : ℕ) (f : Function) (args : List Value)
    (ctx ctx3 : RuntimeContext)
    (hact : execute_action R F fns fuel f.body
      (bind_parameters f.parameters args (ctx.push_call_frame f.name)) = .ok ctx3) :
    call_user_function R F fns (fuel + 1) f args ctx =
      .ok (returnValueOf ctx3, ctx3.pop_call_frame.clear_control_flow) := by
  cases h' : interp R F fns fuel (.act f.body.statements)
      (bind_parameters f.parameters args (ctx.push_call_frame f.name)) with
  | error e =>
    rw [execute_action, h'] at hact
    exact absurd hact (by simp [Except.map])
  | ok p =>
    obtain ⟨v3, c3⟩ := p
    rw [execute_action, h'] at hact
    simp only [Except.map] at hact
    injection hact with hc
    subst hc
    show interp R F fns (fuel + 1) (.callUser f args) ctx = _
    simp only [interp, h']
    rfl

/-- C3: `call_user_function` pushes a new call frame (the body runs in
`bind_parameters … (push_call_frame …)`, which has one more frame, named
after the function, than the caller's stack), binds the parameters
positionally — the `i`-th parameter reads back as the `i`-th argument, or
`Undefined` past the supplied arguments — executes the body, returns `v`
for a `Return v` signal and `Undefined` otherwise, pops the frame, and
clears the signal, so a `Return` never escapes the call boundary.  The
binding clause assumes distinct parameter names that are not built-in
variable names, and a built-in map holding only built-in names (as every
interpreter-made context does). -/
theorem call_user_function_semantics (R : RegexImpl) (F : FloatOps)
    (fns : List (Str × Function)) (fuel : ℕ) (f : Function) (args : List Value)
    (ctx ctx3 : RuntimeContext)
    (hact : execute_action R F fns fuel f.body
      (bind_parameters f.parameters args (ctx.push_call_frame f.name)) = .ok ctx3) :
    call_user_function R F fns (fuel + 1) f args ctx =
      .ok (returnValueOf ctx3, ctx3.pop_call_frame.clear_control_flow) ∧
    (bind_parameters f.parameters args (ctx.push_call_frame f.name)).call_stack.length =
      ctx.call_stack.length + 1 ∧
    ((bind_parameters f.parameters args (ctx.push_call_frame f.name)).call_stack.map
      CallFrame.function_name).headD [] = f.name ∧
    (ctx3.pop_call_frame.clear_control_flow).control_flow = .None ∧
    (ctx3.pop_call_frame.clear_control_flow).call_stack = ctx3.call_stack.tail ∧
    (f.parameters.Nodup → (∀ p ∈ f.parameters, p ∉ specialVarNames) →
      builtinKeysOnly ctx = true →
      ∀ i, i < f.parameters.length →
        (bind_parameters f.parameters args (ctx.push_call_frame f.name)).get_variable
          (f.parameters.getD i []) = args.getD i .Undefined) := by
  refine ⟨call_user_function_step R F fns fuel f args ctx ctx3 hact, ?_, ?_, rfl, rfl, ?_⟩
  · have := bind_parameters_stack_names f.parameters args (ctx.push_call_frame f.name)
    have hlen := congrArg List.length this
    simpa [RuntimeContext.push_call_frame] using hlen
  · rw [bind_parameters_stack_names]
    rfl
  · intro hnd hns hbk i hi
    have hbk2 : builtinKeysOnly (ctx.push_call_frame f.name) = true := hbk
    exact bind_parameters_get f.parameters args (ctx.push_call_frame f.name) i hnd hns hbk2
      { function_name := f.name, vars := [] } ctx.call_stack rfl hi

/-- Witness for C3: `function g(a, b) { return a }` called with one
argument binds `a` to the argument and `b` to `Undefined`, returns the
argument, and comes back with an empty stack and no signal. -/
theorem call_user_function_semantics_witness :
    call_user_function RegexImpl.none FloatOps.zero [] 10
      { name := str "g", parameters := [str "a", str "b"],
        body := ⟨[.Return (some (.Identifier (str "a")))]⟩ }
      [.Number 5] RuntimeContext.new =
      .ok (returnValueOf ((execute_action RegexImpl.none FloatOps.zero [] 9
          ⟨[.Return (some (.Identifier (str "a")))]⟩
          (bind_parameters [str "a", str "b"] [.Number 5]
            (RuntimeContext.new.push_call_frame (str "g")))).toOption.getD
            RuntimeContext.new),
        ((execute_action RegexImpl.none FloatOps.zero [] 9
          ⟨[.Return (some (.Identifier (str "a")))]⟩
          (bind_parameters [str "a", str "b"] [.Number 5]
            (RuntimeContext.new.push_call_frame (str "g")))).toOption.getD
            RuntimeContext.new).pop_call_frame.clear_control_flow) ∧
    (bind_parameters [str "a", str "b"] [.Number 5]
      (RuntimeContext.new.push_call_frame (str "g"))).get_variable (str "a") = .Number 5 ∧
    (bind_parameters [str "a", str "b"] [.Number 5]
      (RuntimeContext.new.push_call_frame (str "g"))).get_variable (str "b") = .Undefined := by
  have h := call_user_function_semantics RegexImpl.none FloatOps.zero [] 9
    { name := str "g", parameters := [str "a", str "b"],
      body := ⟨[.Return (some (.Identifier (str "a")))]⟩ }
    [.Number 5] RuntimeContext.new _ rfl
  refine ⟨h.1, ?_, ?_⟩
  · exact h.2.2.2.2.2 (by decide) (by decide) (by decide) 0 (by decide)
  · exact h.2.2.2.2.2 (by decide) (by decide) (by decide) 1 (by decide)

/-- C4: whenever `call_user_function` returns successfully the resulting
control flow is `None`, whatever signal the body raised — in particular an
`exit` or `next` inside the body is absorbed at the function boundary —
while `exit` still leaves `exit_code` set: `set_exit_code` records
`Some code`, and the popped-and-cleared result preserves the body's
`exit_code`. -/
theorem call_user_function_clears_signals :
    (∀ (R : RegexImpl) (F : FloatOps) (fns : List (Str × Function)) (fuel : ℕ)
      (f : Function) (args : List Value) (ctx : RuntimeContext) (v : Value)
      (ctx2 : RuntimeContext),
      call_user_function R F fns fuel f args ctx = .ok (v, ctx2) →
      ctx2.control_flow = .None) ∧
    (∀ (R : RegexImpl) (F : FloatOps) (fns : List (Str × Function)) (fuel : ℕ)
      (f : Function) (args : List Value) (ctx ctx3 : RuntimeContext) (c : ℤ),
      execute_action R F fns fuel f.body
        (bind_parameters f.parameters args (ctx.push_call_frame f.name)) = .ok ctx3 →
      ctx3.control_flow = .Exit c →
      call_user_function R F fns (fuel + 1) f args ctx =
        .ok (.Undefined, ctx3.pop_call_frame.clear_control_flow) ∧
      (ctx3.pop_call_frame.clear_control_flow).exit_code = ctx3.exit_code ∧
      (ctx3.pop_call_frame.clear_control_flow).control_flow = .None) ∧
    (∀ (ctx : RuntimeContext) (c : ℤ),
      (ctx.set_exit_code c).exit_code = some c ∧
      (ctx.set_exit_code c).control_flow = .Exit c) := by
  refine ⟨?_, ?_, fun ctx c => ⟨rfl, rfl⟩⟩
  · intro R F fns fuel f args ctx v ctx2 h
    match fuel with
    | 0 => exact absurd h (by simp [call_user_function, interp])
    | fuel + 1 =>
      cases h' : interp R F fns fuel (.act f.body.statements)
          (bind_parameters f.parameters args (ctx.push_call_frame f.name)) with
      | error e =>
        have hfail : call_user_function R F fns (fuel + 1) f args ctx = .error e := by
          show interp R F fns (fuel + 1) (.callUser f args) ctx = _
          simp only [interp, h']
          rfl
        rw [hfail] at h
        exact Except.noConfusion h
      | ok p =>
        obtain ⟨v3, c3⟩ := p
        have hact : execute_action R F fns fuel f.body
            (bind_parameters f.parameters args (ctx.push_call_frame f.name)) = .ok c3 := by
          rw [execute_action, h']
          rfl
        rw [call_user_function_step R F fns fuel f args ctx c3 hact] at h
        injection h with hp
        have h2 : ctx2 = c3.pop_call_frame.clear_control_flow :=
          (congrArg Prod.snd hp).symm
        rw [h2]
        rfl
  · intro R F fns fuel f args ctx ctx3 c hact hcf
    refine ⟨?_, rfl, rfl⟩
    rw [call_user_function_step R F fns fuel f args ctx ctx3 hact, returnValueOf, hcf]

/-- Witness for C4: a body consisting of `exit 3` comes back with the
signal cleared and `exit_code = some 3`. -/
theorem call_user_function_clears_signals_witness :
    (let bodyCtx := (execute_action RegexImpl.none FloatOps.zero [] 9
        ⟨[.Exit (some (.Literal (.Number 3)))]⟩
        (bind_parameters [] [] (RuntimeContext.new.push_call_frame (str "h")))).toOption.getD
        RuntimeContext.new
     call_user_function RegexImpl.none FloatOps.zero [] 10
        { name := str "h", parameters := [], body := ⟨[.Exit (some (.Literal (.Number 3)))]⟩ }
        [] RuntimeContext.new =
        .ok (.Undefined, bodyCtx.pop_call_frame.clear_control_flow) ∧
     (bodyCtx.pop_call_frame.clear_control_flow).exit_code = bodyCtx.exit_code ∧
     (bodyCtx.pop_call_frame.clear_control_flow).control_flow = .None) ∧
    (RuntimeContext.new.set_exit_code 3).exit_code = some 3 := by
  refine ⟨?_, (call_user_function_clears_signals.2.2 RuntimeContext.new 3).1⟩
  exact call_user_function_clears_signals.2.1 RegexImpl.none FloatOps.zero [] 9
    { name := str "h", parameters := [], body := ⟨[.Exit (some (.Literal (.Number 3)))]⟩ }
    [] RuntimeContext.new _ 3 rfl rfl

/-! ## Claim C2: main-rule evaluation -/

theorem except_bind_err {α β : Type} (e : Err) (f : α → Except Err β) :
    (Except.error e >>= f) = .error e := rfl

theorem except_bind_ok {α β : Type} (a : α) (f : α → Except Err β) :
    (Except.ok a >>= f) = f a := rfl

/-- Declaration-order compositionality of the main-rule loop: once a
prefix of the rule list has been processed without an early stop, the
remaining rules are processed from the resulting state. -/
theorem run_main_rules_append (R : RegexImpl) (F : FloatOps)
    (fns : List (Str × Function)) (fuel : ℕ) (pre rest : List Rule) (any : Bool)
    (ctx : RuntimeContext) (any1 : Bool) (ctx1 : RuntimeContext)
    (h : run_main_rules R F fns fuel pre any ctx = .ok (.fell any1 ctx1)) :
    run_main_rules R F fns fuel (pre ++ rest) any ctx =
      run_main_rules R F fns fuel rest any1 ctx1 := by
  induction pre generalizing any ctx with
  | nil =>
    simp only [run_main_rules, Except.ok.injEq, RuleScan.fell.injEq] at h
    obtain ⟨rfl, rfl⟩ := h
    rw [List.nil_append]
  | cons r pre ih =>
    rw [List.cons_append]
    simp only [run_main_rules] at h ⊢
    cases hp : evalRulePattern R F fns fuel r ctx with
    | error e =>
      rw [hp, except_bind_err] at h
      cases h
    | ok mc =>
      obtain ⟨m, c1⟩ := mc
      rw [hp, except_bind_ok] at h
      rw [except_bind_ok]
      cases m with
      | false =>
        rw [if_neg (by simp)] at h
        rw [if_neg (by simp)]
        exact ih any c1 h
      | true =>
        rw [if_pos rfl] at h
        rw [if_pos rfl]
        cases hq : execute_action R F fns fuel r.action c1 with
        | error e =>
          rw [hq, except_bind_err] at h
          cases h
        | ok c2 =>
          rw [hq, except_bind_ok] at h
          rw [except_bind_ok]
          cases hcf : c2.control_flow <;> rw [hcf] at h
          · exact ih true c2 h
          · exact ih true c2 h
          · exact ih true c2 h
          · cases h
          · cases h
          · exact ih true c2 h

/-- With no pending `Exit`, `execute_main_rules` proceeds to its body. -/
theorem execute_main_rules_no_exit (R : RegexImpl) (F : FloatOps)
    (fns : List (Str × Function)) (fuel : ℕ) (p : Program) (record : Str)
    (ctx : RuntimeContext) (hne : ∀ c, ctx.control_flow ≠ .Exit c) :
    execute_main_rules R F fns fuel p record ctx =
      execute_main_rules_go R F fns fuel p record ctx := by
  obtain ⟨v1, v2, v3, v4, v5, v6, v7, v8, v9, v10, v11, v12, v13, cf, v15, v16⟩ := ctx
  cases cf
  · rfl
  · rfl
  · rfl
  · rfl
  · exact absurd rfl (hne _)
  · rfl

/-- C2: main rules are evaluated in declaration order (processing a rule
list decomposes over any prefix that ran without an early stop); a `Next`
signal raised by a matched rule's action ends the record — the call
succeeds with `Ok(true)`, the remaining rules (`rest`) never influence the
result, and the signal is cleared, so later records are unaffected; an
`Exit` signal makes the call return `Ok(false)` immediately with the
signal kept; and any call made while an `Exit` signal is pending is a
no-op returning `Ok(false)` with the context untouched (no record is set,
no rule runs). -/
theorem execute_main_rules_spec :
    (∀ (R : RegexImpl) (F : FloatOps) (fns : List (Str × Function)) (fuel : ℕ)
      (p : Program) (record : Str) (ctx : RuntimeContext) (c : ℤ),
      ctx.control_flow = .Exit c →
      execute_main_rules R F fns fuel p record ctx = .ok (false, ctx)) ∧
    (∀ (R : RegexImpl) (F : FloatOps) (fns : List (Str × Function)) (fuel : ℕ)
      (pre rest : List Rule) (any : Bool) (ctx : RuntimeContext) (any1 : Bool)
      (ctx1 : RuntimeContext),
      run_main_rules R F fns fuel pre any ctx = .ok (.fell any1 ctx1) →
      run_main_rules R F fns fuel (pre ++ rest) any ctx =
        run_main_rules R F fns fuel rest any1 ctx1) ∧
    (∀ (R : RegexImpl) (F : FloatOps) (fns : List (Str × Function)) (fuel : ℕ)
      (p : Program) (record : Str) (ctx : RuntimeContext) (pre : List Rule)
      (rule : Rule) (rest : List Rule) (any1 : Bool) (ctx1 ctx2 ctx3 : RuntimeContext),
      (∀ c, ctx.control_flow ≠ .Exit c) →
      p.get_main_rules = pre ++ rule :: rest →
      run_main_rules R F fns fuel pre false (ctx.set_current_record R record) =
        .ok (.fell any1 ctx1) →
      evalRulePattern R F fns fuel rule ctx1 = .ok (true, ctx2) →
      execute_action R F fns fuel rule.action ctx2 = .ok ctx3 →
      ((ctx3.control_flow = .Next →
        execute_main_rules R F fns fuel p record ctx = .ok (true, ctx3.clear_control_flow) ∧
        (ctx3.clear_control_flow).control_flow = .None) ∧
       (∀ c, ctx3.control_flow = .Exit c →
        execute_main_rules R F fns fuel p record ctx = .ok (false, ctx3)))) := by
  refine ⟨?_, ?_, ?_⟩
  · intro R F fns fuel p record ctx c h
    simp only [execute_main_rules, h]
  · exact fun R F fns fuel pre rest any ctx any1 ctx1 h =>
      run_main_rules_append R F fns fuel pre rest any ctx any1 ctx1 h
  · intro R F fns fuel p record ctx pre rule rest any1 ctx1 ctx2 ctx3 hne hrules hpre hpat hact
    have hgo := execute_main_rules_no_exit R F fns fuel p record ctx hne
    have hstep : run_main_rules R F fns fuel p.get_main_rules false
        (ctx.set_current_record R record) =
        (match ctx3.control_flow with
         | .Next => Except.ok (.stoppedNext ctx3)
         | .Exit _ => Except.ok (.stoppedExit ctx3)
         | _ => run_main_rules R F fns fuel rest true ctx3) := by
      rw [hrules,
        run_main_rules_append R F fns fuel pre (rule :: rest) false _ any1 ctx1 hpre]
      simp only [run_main_rules]
      rw [hpat, except_bind_ok, if_pos rfl, hact, except_bind_ok]
    constructor
    · intro hNext
      refine ⟨?_, rfl⟩
      rw [hgo]
      simp only [execute_main_rules_go]
      rw [hstep, hNext]
    · intro c hExit
      rw [hgo]
      simp only [execute_main_rules_go]
      rw [hstep, hExit]

/-- A one-rule program whose action is a bare `next`. -/
def nextDemoProgram : Program :=
  { rules := [{ pattern := Option.none, action := ⟨[.Next]⟩ }], functions := [] }

/-- The context produced by running that action on the first record. -/
def nextDemoCtx3 : RuntimeContext :=
  (execute_action RegexImpl.none FloatOps.zero [] 10 ⟨[.Next]⟩
    (RuntimeContext.new.set_current_record RegexImpl.none (str "r"))).toOption.getD
    RuntimeContext.new

/-- Witness for C2: the `next` action makes the call succeed with
`Ok(true)` and a cleared signal, and a pending `Exit` short-circuits the
call to a no-op. -/
theorem execute_main_rules_spec_witness :
    execute_main_rules RegexImpl.none FloatOps.zero [] 10 nextDemoProgram (str "r")
      RuntimeContext.new = .ok (true, nextDemoCtx3.clear_control_flow) ∧
    execute_main_rules RegexImpl.none FloatOps.zero [] 10 nextDemoProgram (str "r")
      { RuntimeContext.new with control_flow := .Exit 0 } =
      .ok (false, { RuntimeContext.new with control_flow := .Exit 0 }) := by
  refine ⟨?_, execute_main_rules_spec.1 RegexImpl.none FloatOps.zero [] 10 nextDemoProgram
    (str "r") { RuntimeContext.new with control_flow := .Exit 0 } 0 rfl⟩
  have h := execute_main_rules_spec.2.2 RegexImpl.none FloatOps.zero [] 10 nextDemoProgram
    (str "r") RuntimeContext.new [] { pattern := Option.none, action := ⟨[.Next]⟩ } []
    false (RuntimeContext.new.set_current_record RegexImpl.none (str "r"))
    (RuntimeContext.new.set_current_record RegexImpl.none (str "r")) nextDemoCtx3
    (fun _ hh => ControlFlow.noConfusion hh) rfl rfl rfl rfl
  exact (h.1 rfl).1

/-! ## Claim C8: field splitting -/

/-- The claim's right-hand side: every maximal whitespace run replaced by
a single space (applied to the trimmed record below). -/
def collapseRuns : Str → Str
  | [] => []
  | c :: rest =>
    if isWs c then ' ' :: collapseRuns (rest.dropWhile isWs)
    else c :: collapseRuns rest
termination_by s => s.length
decreasing_by
  · exact Nat.lt_succ_of_le (List.dropWhile_sublist isWs).length_le
  · simp

theorem collapseRuns_nil : collapseRuns [] = [] := by simp [collapseRuns]

theorem collapseRuns_cons (c : Char) (rest : Str) :
    collapseRuns (c :: rest) =
      if isWs c = true then ' ' :: collapseRuns (rest.dropWhile isWs)
      else c :: collapseRuns rest := by
  simp only [collapseRuns]

theorem trimEnd_eq_nil_iff (t : Str) : trimEnd t = [] ↔ ∀ c ∈ t, isWs c = true := by
  induction t with
  | nil => simp [trimEnd]
  | cons c t ih =>
    simp only [trimEnd, List.forall_mem_cons]
    cases hr : trimEnd t with
    | nil =>
      rw [hr] at ih
      by_cases hc : isWs c = true
      · rw [if_pos hc]
        constructor
        · intro _
          exact ⟨hc, ih.mp rfl⟩
        · intro _
          rfl
      · rw [if_neg hc]
        constructor
        · intro hh
          exact absurd hh (by simp)
        · intro hh
          exact absurd hh.1 hc
    | cons x xs =>
      rw [hr] at ih
      constructor
      · intro hh
        exact absurd hh (by simp)
      · intro hh
        exact absurd (ih.mpr hh.2) (by simp)

theorem splitWsAux_ne_nil (t acc : Str) (h : acc ≠ []) : splitWsAux acc t ≠ [] := by
  induction t generalizing acc with
  | nil => simp [splitWsAux, h]
  | cons c t ih =>
    simp only [splitWsAux]
    by_cases hc : isWs c = true
    · rw [if_pos hc, if_neg h]
      simp
    · rw [if_neg hc]
      exact ih (c :: acc) (by simp)

theorem splitWsAux_nil_iff (t : Str) :
    splitWsAux [] t = [] ↔ ∀ c ∈ t, isWs c = true := by
  induction t with
  | nil => simp [splitWsAux]
  | cons c t ih =>
    simp only [List.forall_mem_cons]
    by_cases hc : isWs c = true
    · rw [show splitWsAux [] (c :: t) = splitWsAux [] t by simp [splitWsAux, hc]]
      simp [hc, ih]
    · rw [show splitWsAux [] (c :: t) = splitWsAux [c] t by simp [splitWsAux, hc]]
      constructor
      · intro hh
        exact absurd hh (splitWsAux_ne_nil t [c] (by simp))
      · intro hh
        exact absurd hh.1 hc

theorem dropWhile_trimEnd_comm (t : Str) :
    (trimEnd t).dropWhile isWs = trimEnd (t.dropWhile isWs) := by
  induction t with
  | nil => rfl
  | cons c t ih =>
    by_cases hc : isWs c = true
    · simp only [trimEnd]
      cases hr : trimEnd t with
      | nil =>
        have hall := (trimEnd_eq_nil_iff t).mp hr
        have hdrop : t.dropWhile isWs = [] := List.dropWhile_eq_nil_iff.mpr hall
        simp [hc, hdrop, List.dropWhile_cons, trimEnd]
      | cons x xs =>
        rw [hr] at ih
        have h1 : List.dropWhile isWs (c :: x :: xs) = List.dropWhile isWs (x :: xs) := by
          simp [List.dropWhile_cons, hc]
        have h2 : List.dropWhile isWs (c :: t) = List.dropWhile isWs t := by
          simp [List.dropWhile_cons, hc]
        rw [h1, h2, ih]
    · simp only [trimEnd]
      have h2 : List.dropWhile isWs (c :: t) = c :: t := by
        simp [List.dropWhile_cons, hc]
      cases hr : trimEnd t with
      | nil =>
        rw [if_neg hc, h2]
        have h3 : List.dropWhile isWs [c] = [c] := by
          simp [List.dropWhile_cons, hc]
        rw [h3]
        simp only [trimEnd, hr]
        rw [if_neg hc]
      | cons x xs =>
        rw [h2]
        have h3 : List.dropWhile isWs (c :: x :: xs) = c :: x :: xs := by
          simp [List.dropWhile_cons, hc]
        rw [h3]
        simp only [trimEnd, hr]

theorem splitWs_join_aux (s : Str) :
    (joinSep [' '] (splitWsAux [] s) = collapseRuns (trimEnd (trimStart s))) ∧
    (∀ acc, acc ≠ [] →
      joinSep [' '] (splitWsAux acc s) = acc.reverse ++ collapseRuns (trimEnd s)) := by
  induction s with
  | nil =>
    constructor
    · simp [splitWsAux, joinSep, trimStart, trimEnd, collapseRuns_nil]
    · intro acc h
      simp [splitWsAux, h, joinSep, trimEnd, collapseRuns_nil]
  | cons c t ih =>
    obtain ⟨ihA, ihB⟩ := ih
    by_cases hc : isWs c = true
    · have hstart : trimStart (c :: t) = trimStart t := by
        simp [trimStart, List.dropWhile_cons, hc]
      constructor
      · rw [show splitWsAux [] (c :: t) = splitWsAux [] t by simp [splitWsAux, hc]]
        rw [ihA, hstart]
      · intro acc hacc
        rw [show splitWsAux acc (c :: t) = acc.reverse :: splitWsAux [] t by
          simp [splitWsAux, hc, hacc]]
        cases hr : trimEnd t with
        | nil =>
          have hall := (trimEnd_eq_nil_iff t).mp hr
          have hnil : splitWsAux [] t = [] := (splitWsAux_nil_iff t).mpr hall
          rw [hnil]
          have hte : trimEnd (c :: t) = [] := by
            simp only [trimEnd, hr]
            rw [if_pos hc]
          rw [hte, collapseRuns_nil]
          simp [joinSep]
        | cons x xs =>
          have hne : splitWsAux [] t ≠ [] := by
            intro hh
            have := (splitWsAux_nil_iff t).mp hh
            rw [(trimEnd_eq_nil_iff t).mpr this] at hr
            exact List.noConfusion hr
          have hjoin : joinSep [' '] (acc.reverse :: splitWsAux [] t) =
              acc.reverse ++ [' '] ++ joinSep [' '] (splitWsAux [] t) := by
            cases hsp : splitWsAux [] t with
            | nil => exact absurd hsp hne
            | cons y ys => simp [joinSep]
          have htc : trimEnd (c :: t) = c :: trimEnd t := by
            simp only [trimEnd, hr]
          rw [hjoin, ihA, htc, hr, collapseRuns_cons, if_pos hc, ← hr,
            dropWhile_trimEnd_comm]
          simp [trimStart, List.append_assoc]
    · have htc : collapseRuns (trimEnd (c :: t)) = c :: collapseRuns (trimEnd t) := by
        simp only [trimEnd]
        cases hr : trimEnd t with
        | nil =>
          rw [if_neg hc, collapseRuns_cons, if_neg hc, collapseRuns_nil]
        | cons x xs =>
          rw [collapseRuns_cons, if_neg hc]
      constructor
      · rw [show splitWsAux [] (c :: t) = splitWsAux [c] t by simp [splitWsAux, hc]]
        rw [ihB [c] (by simp)]
        have hstart : trimStart (c :: t) = c :: t := by
          simp [trimStart, List.dropWhile_cons, hc]
        rw [hstart, htc]
        simp
      · intro acc hacc
        rw [show splitWsAux acc (c :: t) = splitWsAux (c :: acc) t by
          simp [splitWsAux, hc]]
        rw [ihB (c :: acc) (by simp), htc]
        simp

theorem splitWs_join (r : Str) : joinSep [' '] (splitWs r) = collapseRuns (trim r) :=
  (splitWs_join_aux r).1

theorem lookupA_update_NF (ctx : RuntimeContext) :
    Value.lookupA (RuntimeContext.update_built_in_vars ctx).built_in_vars (str "NF") =
      some (.Number ((ctx.fields.length - 1 : ℕ) : ℚ)) := by
  simp only [RuntimeContext.update_built_in_vars]
  rw [lookupA_insertA_other _ _ _ _ (by decide), lookupA_insertA_other _ _ _ _ (by decide),
    lookupA_insertA_other _ _ _ _ (by decide), lookupA_insertA_other _ _ _ _ (by decide),
    lookupA_insertA_other _ _ _ _ (by decide), lookupA_insertA_other _ _ _ _ (by decide),
    lookupA_insertA_other _ _ _ _ (by decide), lookupA_insertA_other _ _ _ _ (by decide),
    lookupA_insertA_self]

/-- **C8**: after `set_current_record`, `$0` is the raw record and the
remaining fields are split by the current `FS`: with the default
`FS = " "` the fields are the whitespace-run split, and joining them with
one space yields the record trimmed with every internal whitespace run
collapsed to a single space; the built-in snapshot's `NF` is
re-synchronized to `fields.length - 1` (the number of split fields); a
single-byte `FS` splits literally on that character; any other `FS`
splits by the regex when it compiles, else by literal substring
(runtime.rs:92-96, 103-136, 138-149). -/
theorem set_current_record_field_splitting (R : RegexImpl) (ctx : RuntimeContext) (r : Str) :
    (ctx.fs = [' '] →
      (RuntimeContext.set_current_record R ctx r).fields = r :: splitWs r ∧
      joinSep [' '] (((RuntimeContext.set_current_record R ctx r).fields).drop 1) =
        collapseRuns (trim r)) ∧
    Value.lookupA (RuntimeContext.set_current_record R ctx r).built_in_vars (str "NF") =
      some (.Number
        (((RuntimeContext.set_current_record R ctx r).fields.length - 1 : ℕ) : ℚ)) ∧
    (ctx.fs ≠ [' '] → utf8Len ctx.fs = 1 →
      (RuntimeContext.set_current_record R ctx r).fields =
        r :: splitChar (ctx.fs.headD ' ') r) ∧
    (ctx.fs ≠ [' '] → utf8Len ctx.fs ≠ 1 →
      (RuntimeContext.set_current_record R ctx r).fields =
        r :: (if R.compilable ctx.fs = true then R.splitRe ctx.fs r
              else splitOnSub ctx.fs r)) := by
  have hfields : (RuntimeContext.set_current_record R ctx r).fields =
      r :: (if ctx.fs = [' '] then splitWs r
            else if utf8Len ctx.fs = 1 then splitChar (ctx.fs.headD ' ') r
            else if R.compilable ctx.fs = true then R.splitRe ctx.fs r
            else splitOnSub ctx.fs r) := rfl
  refine ⟨fun hfs => ?_, ?_, fun hfs h1 => ?_, fun hfs h1 => ?_⟩
  · constructor
    · rw [hfields, if_pos hfs]
    · rw [hfields, if_pos hfs]
      exact splitWs_join r
  · exact lookupA_update_NF _
  · rw [hfields, if_neg hfs, if_pos h1]
  · rw [hfields, if_neg hfs, if_neg h1]

theorem set_current_record_field_splitting_witness :
    (RuntimeContext.new.set_current_record RegexImpl.none (str " a  b c ")).fields =
      [str " a  b c ", str "a", str "b", str "c"] ∧
    joinSep [' ']
        (((RuntimeContext.new.set_current_record RegexImpl.none
            (str " a  b c ")).fields).drop 1) = str "a b c" ∧
    Value.lookupA
        (RuntimeContext.new.set_current_record RegexImpl.none
          (str " a  b c ")).built_in_vars (str "NF") = some (.Number 3) := by
  have h := set_current_record_field_splitting RegexImpl.none RuntimeContext.new
    (str " a  b c ")
  obtain ⟨h1, h2, -, -⟩ := h
  obtain ⟨hf, hj⟩ := h1 rfl
  refine ⟨?_, ?_, ?_⟩
  · rw [hf]
    rfl
  · rw [hj]
    show collapseRuns ['a', ' ', ' ', 'b', ' ', 'c'] = str "a b c"
    have ha : isWs 'a' = false := by decide
    have hb : isWs 'b' = false := by decide
    have hc3 : isWs 'c' = false := by decide
    have hsp : isWs ' ' = true := by decide
    simp [collapseRuns_cons, collapseRuns_nil, List.dropWhile_cons, ha, hb, hc3, hsp, str]
  · rw [h2, hf]
    rfl

/-! ## Claim C10: number-to-string round-trip

Supporting lemmas: decimal rendering produces digit strings, re-parsing
them recovers the value, and the scanner of `to_number` consumes a
rendered number completely. -/

theorem digitChar_toNat (d : ℕ) (h : d < 10) : (digitChar d).toNat = 48 + d := by
  interval_cases d <;> rfl

theorem isDigitC_digitChar (d : ℕ) (h : d < 10) : isDigitC (digitChar d) = true := by
  interval_cases d <;> rfl

theorem natToStrGo_digits (fuel n : ℕ) (h : n < fuel) :
    ∀ c ∈ natToStrGo fuel n, isDigitC c = true := by
  induction fuel generalizing n with
  | zero => exact absurd h (Nat.not_lt_zero n)
  | succ f ih =>
    intro c hc
    simp only [natToStrGo] at hc
    by_cases h10 : n < 10
    · rw [if_pos h10] at hc
      simp only [List.mem_singleton] at hc
      subst hc
      exact isDigitC_digitChar n h10
    · rw [if_neg h10] at hc
      rcases List.mem_append.mp hc with h1 | h1
      · exact ih (n / 10) (by omega) c h1
      · simp only [List.mem_singleton] at h1
        subst h1
        exact isDigitC_digitChar (n % 10) (Nat.mod_lt _ (by norm_num))

theorem natToStrGo_ne_nil (fuel n : ℕ) (h : n < fuel) : natToStrGo fuel n ≠ [] := by
  cases fuel with
  | zero => exact absurd h (Nat.not_lt_zero n)
  | succ f =>
    simp only [natToStrGo]
    by_cases h10 : n < 10
    · rw [if_pos h10]
      simp
    · rw [if_neg h10]
      simp

theorem parseNatAux_append (acc : ℕ) (s t : Str) :
    parseNatAux acc (s ++ t) = parseNatAux (parseNatAux acc s) t := by
  induction s generalizing acc with
  | nil => rfl
  | cons c cs ih => exact ih (acc * 10 + (c.toNat - 48))

theorem parseNatAux_nil (acc : ℕ) : parseNatAux acc [] = acc := rfl

theorem parseNatAux_cons (acc : ℕ) (c : Char) (t : Str) :
    parseNatAux acc (c :: t) = parseNatAux (acc * 10 + (c.toNat - 48)) t := rfl

theorem parseNatAux_natToStrGo (fuel n acc : ℕ) (h : n < fuel) :
    parseNatAux acc (natToStrGo fuel n) = acc * 10 ^ (natToStrGo fuel n).length + n := by
  induction fuel generalizing n acc with
  | zero => exact absurd h (Nat.not_lt_zero n)
  | succ f ih =>
    by_cases h10 : n < 10
    · rw [show natToStrGo (f + 1) n = [digitChar n] from by simp only [natToStrGo, if_pos h10]]
      rw [parseNatAux_cons, parseNatAux_nil, digitChar_toNat n h10, List.length_singleton,
        pow_one]
      omega
    · have hrec : n / 10 < f := by omega
      rw [show natToStrGo (f + 1) n = natToStrGo f (n / 10) ++ [digitChar (n % 10)] from by
        simp only [natToStrGo, if_neg h10]]
      rw [parseNatAux_append, ih (n / 10) acc hrec, parseNatAux_cons, parseNatAux_nil,
        digitChar_toNat (n % 10) (by omega), List.length_append, List.length_singleton,
        pow_succ]
      have hx : (acc * 10 ^ (natToStrGo f (n / 10)).length + n / 10) * 10 +
            (48 + n % 10 - 48) =
          acc * (10 ^ (natToStrGo f (n / 10)).length * 10) + (n / 10 * 10 + n % 10) := by
        have h48 : 48 + n % 10 - 48 = n % 10 := by omega
        rw [h48]
        ring
      rw [hx]
      have hdm : n / 10 * 10 + n % 10 = n := by omega
      rw [hdm]

theorem natToStrGo_length (fuel n k : ℕ) (h : n < fuel) (hk : 1 ≤ k) (hn : n < 10 ^ k) :
    (natToStrGo fuel n).length ≤ k := by
  induction fuel generalizing n k with
  | zero => exact absurd h (Nat.not_lt_zero n)
  | succ f ih =>
    by_cases h10 : n < 10
    · simp only [natToStrGo, if_pos h10, List.length_singleton]
      exact hk
    · have hk2 : 2 ≤ k := by
        rcases Nat.lt_or_ge k 2 with hlt | hge
        · exfalso
          have hk1 : k = 1 := by omega
          rw [hk1, pow_one] at hn
          omega
        · exact hge
      simp only [natToStrGo, if_neg h10, List.length_append, List.length_singleton]
      have hp : 10 ^ k = 10 ^ (k - 1) * 10 := by
        rw [← pow_succ]
        congr 1
        omega
      have hdiv : n / 10 < 10 ^ (k - 1) := by
        rw [hp] at hn
        omega
      have hlen := ih (n / 10) (k - 1) (by omega) (by omega) hdiv
      omega

theorem natToStr_digits (n : ℕ) : ∀ c ∈ natToStr n, isDigitC c = true :=
  natToStrGo_digits (n + 1) n (Nat.lt_succ_self n)

theorem natToStr_ne_nil (n : ℕ) : natToStr n ≠ [] :=
  natToStrGo_ne_nil (n + 1) n (Nat.lt_succ_self n)

theorem parseNat_natToStr (n : ℕ) : parseNat (natToStr n) = n := by
  have h := parseNatAux_natToStrGo (n + 1) n 0 (Nat.lt_succ_self n)
  simpa [parseNat, natToStr] using h

theorem natToStr_length_le (n k : ℕ) (hk : 1 ≤ k) (hn : n < 10 ^ k) :
    (natToStr n).length ≤ k :=
  natToStrGo_length (n + 1) n k (Nat.lt_succ_self n) hk hn

theorem parseNatAux_zeros (j acc : ℕ) : parseNatAux acc (List.replicate j '0') = acc * 10 ^ j := by
  induction j generalizing acc with
  | zero =>
    rw [List.replicate_zero, parseNatAux_nil, pow_zero, mul_one]
  | succ i ih =>
    rw [List.replicate_succ, parseNatAux_cons, ih]
    have h0 : ('0' : Char).toNat - 48 = 0 := rfl
    rw [h0, pow_succ]
    ring

theorem parseNat_pad (j : ℕ) (fr : Str) :
    parseNat (List.replicate j '0' ++ fr) = parseNat fr := by
  simp only [parseNat, parseNatAux_append, parseNatAux_zeros]
  simp

theorem isDigitC_facts (c : Char) (h : isDigitC c = true) :
    c ≠ '+' ∧ c ≠ '-' ∧ c ≠ '.' ∧ c ≠ 'e' ∧ c ≠ 'E' ∧ isWs c = false := by
  simp only [isDigitC, Bool.and_eq_true, decide_eq_true_eq] at h
  refine ⟨?_, ?_, ?_, ?_, ?_, ?_⟩
  · intro hc; subst hc; revert h; decide
  · intro hc; subst hc; revert h; decide
  · intro hc; subst hc; revert h; decide
  · intro hc; subst hc; revert h; decide
  · intro hc; subst hc; revert h; decide
  · simp only [isWs, Bool.or_eq_false_iff, Bool.and_eq_false_iff, decide_eq_false_iff_not]
    omega

theorem trimEnd_of_no_ws (s : Str) (h : ∀ c ∈ s, isWs c = false) : trimEnd s = s := by
  induction s with
  | nil => rfl
  | cons c t ih =>
    have ht := ih (fun x hx => h x (List.mem_cons_of_mem c hx))
    have hc := h c (List.mem_cons_self c t)
    simp only [trimEnd, ht]
    cases t with
    | nil => simp [hc]
    | cons x xs => rfl

theorem trim_of_no_ws (s : Str) (h : ∀ c ∈ s, isWs c = false) : trim s = s := by
  have h1 : trimStart s = s := by
    cases s with
    | nil => rfl
    | cons c t =>
      simp only [trimStart, List.dropWhile_cons, h c (List.mem_cons_self c t)]
      simp
  show trimEnd (trimStart s) = s
  rw [h1, trimEnd_of_no_ws s h]

theorem scanNum_cons_digit (c : Char) (rest : Str) (pos : ℕ) (hd he : Bool)
    (h : isDigitC c = true) :
    scanNum (c :: rest) pos hd he = scanNum rest (pos + 1) hd he := by
  conv_lhs => unfold scanNum
  rw [if_pos h]

theorem scanNum_cons_dot (rest : Str) (pos : ℕ) :
    scanNum ('.' :: rest) pos false false = scanNum rest (pos + 1) true false := by
  conv_lhs => unfold scanNum
  rw [if_neg (by decide), if_pos (by exact ⟨rfl, by decide, by decide⟩)]

theorem scanNum_digits (ds : Str) (pos : ℕ) (hd he : Bool)
    (h : ∀ c ∈ ds, isDigitC c = true) :
    scanNum ds pos hd he = pos + ds.length := by
  induction ds generalizing pos with
  | nil => simp [scanNum]
  | cons c t ih =>
    have hc := h c (List.mem_cons_self c t)
    rw [scanNum_cons_digit c t pos hd he hc,
      ih (pos + 1) (fun x hx => h x (List.mem_cons_of_mem c hx))]
    simp only [List.length_cons]
    omega

theorem scanNum_dotted (ds1 ds2 : Str) (pos : ℕ)
    (h1 : ∀ c ∈ ds1, isDigitC c = true) (h2 : ∀ c ∈ ds2, isDigitC c = true) :
    scanNum (ds1 ++ '.' :: ds2) pos false false = pos + ds1.length + 1 + ds2.length := by
  induction ds1 generalizing pos with
  | nil =>
    rw [List.nil_append, scanNum_cons_dot ds2 pos,
      scanNum_digits ds2 (pos + 1) true false h2]
    simp only [List.length_nil]
  | cons c t ih =>
    have hc := h1 c (List.mem_cons_self c t)
    rw [List.cons_append, scanNum_cons_digit c _ pos false false hc,
      ih (pos + 1) (fun x hx => h1 x (List.mem_cons_of_mem c hx))]
    simp only [List.length_cons]
    omega

theorem takeWhile_dropWhile_append (p : Char → Bool) (l1 : Str) (x : Char) (l2 : Str)
    (h1 : ∀ c ∈ l1, p c = true) (hx : p x = false) :
    ((l1 ++ x :: l2).takeWhile p = l1) ∧ ((l1 ++ x :: l2).dropWhile p = x :: l2) := by
  induction l1 with
  | nil => simp [List.takeWhile_cons, List.dropWhile_cons, hx]
  | cons c t ih =>
    have hc := h1 c (List.mem_cons_self c t)
    have iht := ih (fun y hy => h1 y (List.mem_cons_of_mem c hy))
    simp only [List.cons_append, List.takeWhile_cons, List.dropWhile_cons, hc, iht.1, iht.2]
    simp

theorem takeWhile_all_eq (p : Char → Bool) (l : Str) (h : ∀ c ∈ l, p c = true) :
    (l.takeWhile p = l) ∧ (l.dropWhile p = []) := by
  induction l with
  | nil => simp
  | cons c t ih =>
    have hc := h c (List.mem_cons_self c t)
    have iht := ih (fun y hy => h y (List.mem_cons_of_mem c hy))
    simp only [List.takeWhile_cons, List.dropWhile_cons, hc, iht.1, iht.2]
    simp

/-- The body of `parseF64?` once the optional sign has been split off
(proof helper; definitionally the same term as in `parseF64?`). -/
def parseF64Body (sgn : ℤ) (s1 : Str) : Option ℚ :=
  let mant := s1.takeWhile (fun c => c ≠ 'e' ∧ c ≠ 'E')
  let rest := s1.dropWhile (fun c => c ≠ 'e' ∧ c ≠ 'E')
  let ip := mant.takeWhile (fun c => c ≠ '.')
  let fpDot := mant.dropWhile (fun c => c ≠ '.')
  let fp := fpDot.drop 1
  if ip.all isDigitC ∧ fp.all isDigitC ∧ (ip ≠ [] ∨ fp ≠ []) then
    let mval : ℚ := mkRat (sgn * (parseNat ip * 10 ^ fp.length + parseNat fp)) (10 ^ fp.length)
    match rest with
    | [] => some mval
    | _ :: expPart =>
      let (esgn, ed) : ℤ × Str :=
        match expPart with
        | '+' :: r => (1, r)
        | '-' :: r => (-1, r)
        | _ => (1, expPart)
      if ed ≠ [] ∧ ed.all isDigitC then
        let e : ℤ := esgn * parseNat ed
        some (if 0 ≤ e then qMul mval (mkRat (10 ^ e.natAbs) 1)
              else qDiv mval (mkRat (10 ^ e.natAbs) 1))
      else none
  else none

theorem parseF64_eq_body_nonsign (c : Char) (t : Str) (h1 : c ≠ '+') (h2 : c ≠ '-') :
    parseF64? (c :: t) = parseF64Body 1 (c :: t) := by
  unfold parseF64?
  split
  rename_i esgn ed heq
  split at heq
  · rename_i r hplus
    exact absurd (List.head_eq_of_cons_eq hplus) h1
  · rename_i r hminus
    exact absurd (List.head_eq_of_cons_eq hminus) h2
  · obtain ⟨rfl, rfl⟩ : esgn = 1 ∧ ed = c :: t :=
      ⟨(congrArg Prod.fst heq).symm, (congrArg Prod.snd heq).symm⟩
    rfl

theorem parseF64_eq_body_neg (u : Str) :
    parseF64? ('-' :: u) = parseF64Body (-1) u := by
  unfold parseF64?
  split
  rename_i esgn ed heq
  split at heq
  · rename_i r hplus
    exact absurd (List.head_eq_of_cons_eq hplus) (by decide)
  · rename_i r hminus
    obtain rfl : u = r := List.tail_eq_of_cons_eq hminus
    obtain ⟨rfl, rfl⟩ : esgn = -1 ∧ ed = u :=
      ⟨(congrArg Prod.fst heq).symm, (congrArg Prod.snd heq).symm⟩
    rfl
  · rename_i hp hm
    exact absurd rfl (hm u)

theorem parseF64Body_digits (sgn : ℤ) (ds : Str) (hne : ds ≠ [])
    (h : ∀ c ∈ ds, isDigitC c = true) :
    parseF64Body sgn ds = some (mkRat (sgn * (parseNat ds : ℕ)) 1) := by
  unfold parseF64Body
  have hallE : ∀ x ∈ ds, (fun ch => decide (ch ≠ 'e' ∧ ch ≠ 'E')) x = true := by
    intro x hx
    have hf := isDigitC_facts x (h x hx)
    simp [hf.2.2.2.1, hf.2.2.2.2.1]
  have hallD : ∀ x ∈ ds, (fun ch => decide (ch ≠ '.')) x = true := by
    intro x hx
    have hf := isDigitC_facts x (h x hx)
    simp [hf.2.2.1]
  have hE := takeWhile_all_eq _ ds hallE
  have hD := takeWhile_all_eq _ ds hallD
  simp only [hE.1, hE.2, hD.1, hD.2, List.drop_nil]
  rw [if_pos ⟨List.all_eq_true.mpr h, by simp, Or.inl hne⟩]
  have hp0 : parseNat ([] : Str) = 0 := rfl
  simp [hp0]

theorem parseF64Body_dotted (sgn : ℤ) (ds1 ds2 : Str) (hne : ds1 ≠ [])
    (h1 : ∀ c ∈ ds1, isDigitC c = true) (h2 : ∀ c ∈ ds2, isDigitC c = true) :
    parseF64Body sgn (ds1 ++ '.' :: ds2) =
      some (mkRat (sgn * ((parseNat ds1 * 10 ^ ds2.length + parseNat ds2 : ℕ)))
        (10 ^ ds2.length)) := by
  unfold parseF64Body
  have hallE : ∀ x ∈ ds1 ++ '.' :: ds2, (fun ch => decide (ch ≠ 'e' ∧ ch ≠ 'E')) x = true := by
    intro x hx
    rcases List.mem_append.mp hx with hx1 | hx2
    · have hf := isDigitC_facts x (h1 x hx1)
      simp [hf.2.2.2.1, hf.2.2.2.2.1]
    · rcases List.mem_cons.mp hx2 with rfl | hx3
      · simp
      · have hf := isDigitC_facts x (h2 x hx3)
        simp [hf.2.2.2.1, hf.2.2.2.2.1]
  have hE := takeWhile_all_eq _ _ hallE
  have hD := takeWhile_dropWhile_append (fun ch => decide (ch ≠ '.')) ds1 '.' ds2
    (fun x hx => by simp [(isDigitC_facts x (h1 x hx)).2.2.1]) (by decide)
  simp only [hE.1, hE.2, hD.1, hD.2, List.drop_succ_cons, List.drop_zero]
  rw [if_pos ⟨List.all_eq_true.mpr h1, List.all_eq_true.mpr h2, Or.inl hne⟩]
  have hcast : (sgn * (↑(parseNat ds1) * 10 ^ ds2.length + ↑(parseNat ds2)) : ℤ) =
      sgn * ↑(parseNat ds1 * 10 ^ ds2.length + parseNat ds2) := by
    push_cast
    ring
  rw [hcast]

theorem scanLen_cons (c : Char) (t : Str) :
    scanLen (c :: t) = if c = '+' ∨ c = '-' then scanNum t 1 false false
      else scanNum (c :: t) 0 false false := rfl

theorem to_number_digits (ds : Str) (hne : ds ≠ []) (h : ∀ c ∈ ds, isDigitC c = true) :
    Value.to_number (.String ds) = (parseNat ds : ℚ) := by
  obtain ⟨c, t, rfl⟩ : ∃ c t, ds = c :: t := by
    cases ds with
    | nil => exact absurd rfl hne
    | cons c t => exact ⟨c, t, rfl⟩
  have hc := h c (List.mem_cons_self c t)
  have hf := isDigitC_facts c hc
  have htrim : trim (c :: t) = c :: t :=
    trim_of_no_ws _ (fun x hx => (isDigitC_facts x (h x hx)).2.2.2.2.2)
  simp only [Value.to_number, htrim]
  rw [if_neg (by simp)]
  rw [scanLen_cons, if_neg (not_or.mpr ⟨hf.1, hf.2.1⟩),
    scanNum_digits (c :: t) 0 false false h]
  rw [if_neg (by
    simp only [List.length_cons, List.headD_cons, Nat.zero_add]
    rintro (h0 | ⟨h1, hsgn⟩)
    · exact absurd h0 (by omega)
    · rcases hsgn with hs | hs
      · exact hf.1 hs
      · exact hf.2.1 hs)]
  rw [Nat.zero_add, List.take_length]
  rw [parseF64_eq_body_nonsign c t hf.1 hf.2.1, parseF64Body_digits 1 (c :: t) (by simp) h]
  simp [Rat.mkRat_one]

theorem to_number_neg_digits (ds : Str) (hne : ds ≠ [])
    (h : ∀ c ∈ ds, isDigitC c = true) :
    Value.to_number (.String ('-' :: ds)) = -(parseNat ds : ℚ) := by
  have htrim : trim ('-' :: ds) = '-' :: ds := by
    refine trim_of_no_ws _ ?_
    intro x hx
    rcases List.mem_cons.mp hx with rfl | hx2
    · decide
    · exact (isDigitC_facts x (h x hx2)).2.2.2.2.2
  simp only [Value.to_number, htrim]
  rw [if_neg (by simp)]
  rw [scanLen_cons, if_pos (Or.inr rfl), scanNum_digits ds 1 false false h]
  rw [if_neg (by
    simp only [List.headD_cons]
    rintro (h0 | ⟨h1, hsgn⟩)
    · exact absurd h0 (by omega)
    · have : ds.length = 0 := by omega
      exact hne (List.length_eq_zero.mp this))]
  rw [show 1 + ds.length = ('-' :: ds).length from by simp [List.length_cons]; omega,
    List.take_length]
  rw [parseF64_eq_body_neg ds, parseF64Body_digits (-1) ds hne h]
  simp [Rat.mkRat_one]

theorem to_number_dotted (ds1 ds2 : Str) (hne : ds1 ≠ [])
    (h1 : ∀ c ∈ ds1, isDigitC c = true) (h2 : ∀ c ∈ ds2, isDigitC c = true) :
    Value.to_number (.String (ds1 ++ '.' :: ds2)) =
      mkRat ((parseNat ds1 * 10 ^ ds2.length + parseNat ds2 : ℕ)) (10 ^ ds2.length) := by
  obtain ⟨c, t, rfl⟩ : ∃ c t, ds1 = c :: t := by
    cases ds1 with
    | nil => exact absurd rfl hne
    | cons c t => exact ⟨c, t, rfl⟩
  have hc := h1 c (List.mem_cons_self c t)
  have hf := isDigitC_facts c hc
  have hno : ∀ x ∈ (c :: t) ++ '.' :: ds2, isWs x = false := by
    intro x hx
    rcases List.mem_append.mp hx with hx1 | hx2
    · exact (isDigitC_facts x (h1 x hx1)).2.2.2.2.2
    · rcases List.mem_cons.mp hx2 with rfl | hx3
      · decide
      · exact (isDigitC_facts x (h2 x hx3)).2.2.2.2.2
  have htrim := trim_of_no_ws _ hno
  simp only [Value.to_number, htrim]
  rw [if_neg (by simp)]
  rw [List.cons_append, scanLen_cons, if_neg (not_or.mpr ⟨hf.1, hf.2.1⟩), ← List.cons_append,
    scanNum_dotted (c :: t) ds2 0 h1 h2]
  rw [if_neg (by
    simp only [List.length_cons]
    rintro (h0 | ⟨h1x, hsgn⟩) <;> omega)]
  rw [show 0 + (c :: t).length + 1 + ds2.length = ((c :: t) ++ '.' :: ds2).length from by
      simp [List.length_append, List.length_cons]; omega,
    List.take_length]
  rw [List.cons_append, parseF64_eq_body_nonsign c _ hf.1 hf.2.1, ← List.cons_append,
    parseF64Body_dotted 1 (c :: t) ds2 (by simp) h1 h2]
  simp

theorem to_number_neg_dotted (ds1 ds2 : Str) (hne : ds1 ≠ [])
    (h1 : ∀ c ∈ ds1, isDigitC c = true) (h2 : ∀ c ∈ ds2, isDigitC c = true) :
    Value.to_number (.String ('-' :: (ds1 ++ '.' :: ds2))) =
      mkRat (-((parseNat ds1 * 10 ^ ds2.length + parseNat ds2 : ℕ) : ℤ))
        (10 ^ ds2.length) := by
  have hno : ∀ x ∈ ds1 ++ '.' :: ds2, isWs x = false := by
    intro x hx
    rcases List.mem_append.mp hx with hx1 | hx2
    · exact (isDigitC_facts x (h1 x hx1)).2.2.2.2.2
    · rcases List.mem_cons.mp hx2 with rfl | hx3
      · decide
      · exact (isDigitC_facts x (h2 x hx3)).2.2.2.2.2
  have htrim : trim ('-' :: (ds1 ++ '.' :: ds2)) = '-' :: (ds1 ++ '.' :: ds2) := by
    refine trim_of_no_ws _ ?_
    intro x hx
    rcases List.mem_cons.mp hx with rfl | hx2
    · decide
    · exact hno x hx2
  simp only [Value.to_number, htrim]
  rw [if_neg (by simp)]
  rw [scanLen_cons, if_pos (Or.inr rfl), scanNum_dotted ds1 ds2 1 h1 h2]
  rw [if_neg (by
    have hl : 1 ≤ ds1.length := by
      cases ds1 with
      | nil => exact absurd rfl hne
      | cons a b => simp [List.length_cons]
    rintro (h0 | ⟨h1x, hsgn⟩) <;> omega)]
  rw [show 1 + ds1.length + 1 + ds2.length = ('-' :: (ds1 ++ '.' :: ds2)).length from by
      simp [List.length_append, List.length_cons]; omega,
    List.take_length]
  rw [parseF64_eq_body_neg _, parseF64Body_dotted (-1) ds1 ds2 hne h1 h2]
  simp [neg_one_mul]

theorem to_number_intToStr (z : ℤ) :
    Value.to_number (.String (intToStr z)) = (z : ℚ) := by
  unfold intToStr
  by_cases hz : z < 0
  · rw [if_pos hz, to_number_neg_digits _ (natToStr_ne_nil _) (natToStr_digits _),
      parseNat_natToStr]
    have h1 : (z.natAbs : ℤ) = -z := by omega
    have h2 : ((z.natAbs : ℕ) : ℚ) = -(z : ℚ) := by
      have h3 : ((z.natAbs : ℤ) : ℚ) = ((-z : ℤ) : ℚ) := by rw [h1]
      rw [Int.cast_natCast, Int.cast_neg] at h3
      exact h3
    rw [h2, neg_neg]
  · rw [if_neg hz, to_number_digits _ (natToStr_ne_nil _) (natToStr_digits _),
      parseNat_natToStr]
    have h1 : (z.natAbs : ℤ) = z := by omega
    have h3 : ((z.natAbs : ℤ) : ℚ) = (z : ℚ) := by rw [h1]
    rw [Int.cast_natCast] at h3
    exact h3

/-- **C10**: for every number whose value has a terminating decimal
expansion — the exact-`ℚ` counterpart of "representable without precision
loss through string form" — rendering it with `to_string` and re-parsing
with `to_number` reproduces the value.  The single point `2^63` (where the
saturating `as i64` cast of `to_string` prints `i64::MAX`, value.rs:48-50)
is excluded: there the string form does lose the value. -/
theorem to_number_to_string_roundtrip (q : ℚ)
    (hden : q.den ∣ 10 ^ decExp q.den) (hsat : ¬(q.den = 1 ∧ q.num = 2 ^ 63)) :
    Value.to_number (.String (Value.to_string (.Number q))) = q := by
  have hq1 : q.den = 1 → ((q.num : ℚ) = q) := by
    intro hd
    have hh := Rat.num_div_den q
    rw [hd] at hh
    simpa using hh
  simp only [Value.to_string, fmtNumber]
  by_cases hint : q.den = 1 ∧ i64Min ≤ q.num ∧ q.num ≤ 2 ^ 63
  · rw [if_pos hint]
    have hne : q.num ≠ 2 ^ 63 := fun hh => hsat ⟨hint.1, hh⟩
    have hmin : min q.num i64Max = q.num := by
      have hle : q.num ≤ i64Max := by
        have := hint.2.2
        simp only [i64Max]
        omega
      exact min_eq_left hle
    rw [hmin, to_number_intToStr]
    exact hq1 hint.1
  · rw [if_neg hint]
    by_cases hk : decExp q.den = 0
    · have hd1 : q.den = 1 := by
        rw [hk] at hden
        simpa using hden
      simp only [displayRat, hk]
      rw [if_pos trivial]
      have hmk : mkRat ((10 : ℤ) ^ 0) 1 = 1 := by
        rw [Rat.mkRat_one]
        norm_num
      rw [hmk, qMul_eq, mul_one, to_number_intToStr]
      exact hq1 hd1
    · simp only [displayRat]
      rw [if_neg hk]
      have hkpos : 1 ≤ decExp q.den := Nat.one_le_iff_ne_zero.mpr hk
      set k := decExp q.den with hkdef
      set m : ℤ := (qMul q (mkRat ((10 : ℤ) ^ k) 1)).num with hmdef
      have hc : q.den * (10 ^ k / q.den) = 10 ^ k := Nat.mul_div_cancel' hden
      have h2 : ((q.den : ℚ)) * ((10 ^ k / q.den : ℕ) : ℚ) = (10 : ℚ) ^ k := by
        rw [← Nat.cast_mul, hc]
        push_cast
        ring
      have hqc : qMul q (mkRat ((10 : ℤ) ^ k) 1) =
          ((q.num * (10 ^ k / q.den : ℕ) : ℤ) : ℚ) := by
        rw [qMul_eq, Rat.mkRat_one, Int.cast_mul, Int.cast_natCast, q_num_eq q, mul_assoc, h2]
        push_cast
        ring
      have hm2 : m = q.num * (10 ^ k / q.den : ℕ) := by
        rw [hmdef, hqc, Rat.num_intCast]
      have hmval : (m : ℚ) = q * (10 : ℚ) ^ k := by
        rw [hm2, Int.cast_mul, Int.cast_natCast, q_num_eq q, mul_assoc, h2]
      have h10Q : ((10 ^ k : ℕ) : ℚ) ≠ 0 := by positivity
      have hfrlen : (natToStr (m.natAbs % 10 ^ k)).length ≤ k :=
        natToStr_length_le _ k hkpos (Nat.mod_lt _ (by positivity))
      have hd2digits : ∀ x ∈ List.replicate (k - (natToStr (m.natAbs % 10 ^ k)).length) '0' ++
          natToStr (m.natAbs % 10 ^ k), isDigitC x = true := by
        intro x hx
        rcases List.mem_append.mp hx with hx1 | hx2
        · have hx0 : x = '0' := List.eq_of_mem_replicate hx1
          subst hx0
          decide
        · exact natToStr_digits _ x hx2
      have hd2len : (List.replicate (k - (natToStr (m.natAbs % 10 ^ k)).length) '0' ++
          natToStr (m.natAbs % 10 ^ k)).length = k := by
        rw [List.length_append, List.length_replicate]
        omega
      have hparse2 : parseNat (List.replicate (k - (natToStr (m.natAbs % 10 ^ k)).length) '0' ++
          natToStr (m.natAbs % 10 ^ k)) = m.natAbs % 10 ^ k := by
        rw [parseNat_pad, parseNat_natToStr]
      by_cases hm0 : m < 0
      · rw [if_pos hm0, List.append_assoc, List.append_assoc, List.singleton_append,
          List.singleton_append]
        rw [to_number_neg_dotted _ _ (natToStr_ne_nil _) (natToStr_digits _) hd2digits]
        rw [hd2len, hparse2, parseNat_natToStr]
        rw [show m.natAbs / 10 ^ k * 10 ^ k + m.natAbs % 10 ^ k = m.natAbs from
          Nat.div_add_mod' _ _]
        have habs : (m.natAbs : ℤ) = -m := by omega
        rw [Rat.mkRat_eq_divInt, Rat.divInt_eq_div, habs, neg_neg, Int.cast_natCast]
        rw [eq_comm, eq_div_iff h10Q, hmval]
        push_cast
        ring
      · rw [if_neg hm0, List.nil_append, List.append_assoc, List.singleton_append]
        rw [to_number_dotted _ _ (natToStr_ne_nil _) (natToStr_digits _) hd2digits]
        rw [hd2len, hparse2, parseNat_natToStr]
        rw [show m.natAbs / 10 ^ k * 10 ^ k + m.natAbs % 10 ^ k = m.natAbs from
          Nat.div_add_mod' _ _]
        have habs : (m.natAbs : ℤ) = m := by omega
        rw [Rat.mkRat_eq_divInt, Rat.divInt_eq_div, Int.cast_natCast, Int.cast_natCast]
        rw [eq_comm, eq_div_iff h10Q]
        rw [show ((m.natAbs : ℕ) : ℚ) = ((m.natAbs : ℤ) : ℚ) from by rw [Int.cast_natCast],
          habs, hmval]
        push_cast
        ring

theorem to_number_to_string_roundtrip_witness :
    (mkRat 5 2).den ∣ 10 ^ decExp (mkRat 5 2).den ∧
    ¬((mkRat 5 2).den = 1 ∧ (mkRat 5 2).num = 2 ^ 63) ∧
    Value.to_number (.String (Value.to_string (.Number (mkRat 5 2)))) = mkRat 5 2 :=
  ⟨by decide, by decide,
    to_number_to_string_roundtrip (mkRat 5 2) (by decide) (by decide)⟩

end FastAwk
